import Mathlib

/-!
# Landing page (produtos mais vendidos): a verification development of `src/js/main.js`

The page script is embedded shallowly.  JavaScript values that reach the utility functions are a
small sum type; numbers carry their exact value (every IEEE-754 double is a dyadic rational
`num / 2 ^ scale`), strings are sequences of code points, and the built-in methods the script calls
(`toFixed`, `split`, `parseInt`, `toLocaleString`, `includes`, `replace`) are written out from
ECMA-262 / ECMA-402.  Markup produced by template literals is kept as structured data: one record
per rendered element, holding the interpolated values and which conditional fragments are present.
The DOM regions the script writes to are the fields of `Page`.

The script assigns its markup to `innerHTML` without escaping the strings it takes from the
catalog.  The records are the elements of the document when those strings are plain text
(`isPlainText`: no `<`, `&`, double quote, carriage return or NUL), and every statement about rendered elements is
made for such strings; what the HTML parser builds from a name or a title that carries markup is
not described here.
-/

namespace Landing

/-! ## JavaScript values -/

/-- A JavaScript number with its exact value: `finite neg num scale` is
`(-1)^neg * num / 2 ^ scale`.  Both zeros are `finite _ 0 _`. -/
inductive JSNumber where
  | nan
  | infinity (negative : Bool)
  | finite (negative : Bool) (num : Nat) (scale : Nat)
  deriving DecidableEq, Repr

/-- The values a JSON field can hold, as far as the script distinguishes them.  `object` stands for
any object or array: always truthy, and without a `toFixed` method. -/
inductive JSValue where
  | undefined
  | null
  | boolean (b : Bool)
  | number (x : JSNumber)
  | string (s : String)
  | object
  deriving DecidableEq, Repr

/-- Exceptions thrown by the script or by the built-ins it calls. -/
inductive JSError where
  | typeError (message : String)
  | error (message : String)
  deriving DecidableEq, Repr

deriving instance DecidableEq for Except

/-- Is the exact value zero (`+0` or `-0`)? -/
def JSNumber.isZero : JSNumber → Bool
  | .finite _ num _ => num == 0
  | _ => false

/-- ToBoolean on numbers: false for NaN and the zeros. -/
def JSNumber.toBoolean : JSNumber → Bool
  | .nan => false
  | .infinity _ => true
  | .finite _ num _ => num != 0

/-- The comparison `x > 0`. -/
def JSNumber.gtZero : JSNumber → Bool
  | .nan => false
  | .infinity negative => !negative
  | .finite negative num _ => !negative && num != 0

/-- ToBoolean. -/
def JSValue.toBoolean : JSValue → Bool
  | .undefined => false
  | .null => false
  | .boolean b => b
  | .number x => x.toBoolean
  | .string s => s != ""
  | .object => true

/-- The comparison `v !== 0`: false exactly for the numbers `+0` and `-0`. -/
def JSValue.strictNeZero : JSValue → Bool
  | .number x => !x.isZero
  | _ => true

/-! ## Decimal digits -/

/-- The character of a decimal digit. -/
def digitChar (d : Nat) : Char := Char.ofNat (48 + d % 10)

/-- Digits of `n`, most significant first, pushed in front of `acc`. -/
def digitsAux : Nat → Nat → List Char → List Char
  | 0, _, acc => acc
  | fuel + 1, n, acc =>
    if n < 10 then digitChar n :: acc
    else digitsAux fuel (n / 10) (digitChar (n % 10) :: acc)

/-- The decimal representation of a natural number (`"0"` for zero, no leading zeros). -/
def natDigits (n : Nat) : List Char := digitsAux (n + 1) n []

/-- Is the code point an ASCII decimal digit? -/
def isDigit (c : Char) : Bool := 48 ≤ c.toNat && c.toNat ≤ 57

/-- Value of a radix-16 digit, if the code point is one. -/
def hexValue (c : Char) : Option Nat :=
  if 48 ≤ c.toNat && c.toNat ≤ 57 then some (c.toNat - 48)
  else if 97 ≤ c.toNat && c.toNat ≤ 102 then some (c.toNat - 87)
  else if 65 ≤ c.toNat && c.toNat ≤ 70 then some (c.toNat - 55)
  else none

/-- Value of a digit in the given radix (10 or 16), if the code point is one. -/
def radixValue (radix : Nat) (c : Char) : Option Nat :=
  if radix = 16 then hexValue c
  else if isDigit c then some (c.toNat - 48) else none

/-- Reads the longest leading run of radix digits: `some value`, or `none` if the run is empty.
`acc` is the value read so far. -/
def readDigits (radix : Nat) : List Char → Option Nat → Option Nat
  | [], acc => acc
  | c :: cs, acc =>
    match radixValue radix c with
    | some d => readDigits radix cs (some (acc.getD 0 * radix + d))
    | none => acc

/-! ## The built-ins used by `formatPrice` -/

/-- Floor of the binary logarithm, by repeated halving. -/
def log2Aux : Nat → Nat → Nat
  | 0, _ => 0
  | fuel + 1, n => if n < 2 then 0 else log2Aux fuel (n / 2) + 1

/-- Number of binary digits of `n` (0 for 0). -/
def bitLength (n : Nat) : Nat := if n = 0 then 0 else log2Aux n n + 1

/-- The real numbers that round to a double (round to nearest, ties to even), as an interval
around it; `closed` tells whether the end points belong to it. -/
structure RoundingInterval where
  center : Nat
  lo : Nat
  hi : Nat
  closed : Bool
  deriving DecidableEq, Repr

/-- The rounding interval of the double `x = num / 2 ^ scale`, in units of `2^-55 * 10^-scale`.
With `L` the bit length of `num`, one ulp of `x` is `2 ^ (L - 53 - scale)`, not below `2^-1074`,
so half an ulp is `2 ^ h * 5 ^ scale` units with `h = max (L + 1) (scale - 1020)`; below a power
of two the neighbour is half as far; the end points belong to the interval when the significand
of `x` is even. -/
def roundingInterval (num scale : Nat) : RoundingInterval :=
  let h := max (bitLength num + 1) (scale - 1020)
  let half := 2 ^ h * 5 ^ scale
  let center := num * 5 ^ scale * 2 ^ 55
  let halfBelow :=
    if num = 2 ^ (bitLength num - 1) ∧ scale - 1020 < bitLength num + 1 then half / 2 else half
  { center := center, lo := center - halfBelow, hi := center + half,
    closed := (num * 2 ^ 55 / 2 ^ (h + 1)) % 2 == 0 }

/-- Does the value `v` (in the units of the interval) round to the double? -/
def RoundingInterval.contains (I : RoundingInterval) (v : Nat) : Bool :=
  if I.closed then decide (I.lo ≤ v) && decide (v ≤ I.hi)
  else decide (I.lo < v) && decide (v < I.hi)

/-- The non-zero multiple of `P` that rounds to the double and is closest to it, if there is one
(of two equally close candidates the one with the even quotient). -/
def closestMultiple (I : RoundingInterval) (P : Nat) : Option Nat :=
  let a := I.center / P * P
  let b := a + P
  match a != 0 && I.contains a, I.contains b with
  | true, true =>
    if I.center - a < b - I.center then some a
    else if b - I.center < I.center - a then some b
    else if (a / P) % 2 = 0 then some a else some b
  | true, false => some a
  | false, true => some b
  | false, false => none

/-- Searches `q = fuel, fuel - 1, ..., 1` for the largest power `10 ^ q` with a multiple
`s * 10 ^ q` (in units of `10^-scale`) that rounds to the double; at `q = 0` the exact value
`num * 5 ^ scale` is such a multiple. -/
def shortestSearch (I : RoundingInterval) : Nat → Nat × Nat
  | 0 => (I.center / 2 ^ 55, 0)
  | q + 1 =>
    match closestMultiple I (10 ^ (q + 1) * 2 ^ 55) with
    | some v => (v / (10 ^ (q + 1) * 2 ^ 55), q + 1)
    | none => shortestSearch I q

/-- The shortest decimal that reads back as the double `num / 2 ^ scale` (ECMA-262 6.1.6.1.20,
step 5): digits `s` and power `q` with value `s * 10 ^ q / 10 ^ scale`. -/
def shortestDecimal (num scale : Nat) : Nat × Nat :=
  if num = 0 then (0, 0)
  else
    shortestSearch (roundingInterval num scale)
      (natDigits ((roundingInterval num scale).hi / 2 ^ 55)).length

/-- Number::toString for a double `num / 2 ^ scale ≥ 10^21` (ECMA-262 6.1.6.1.20): the shortest
digit string `s` of `k` digits and the position `n` of the decimal point, in fixed notation when
`n ≤ 21` and in exponent notation otherwise. -/
def largeToString (num scale : Nat) : List Char :=
  let sp := shortestDecimal num scale
  let s := natDigits sp.1
  let k := s.length
  let n := k + sp.2 - scale
  if n ≤ 21 then s ++ List.replicate (n - k) '0'
  else if k = 1 then s ++ ['e', '+'] ++ natDigits (n - 1)
  else s.take 1 ++ ['.'] ++ s.drop 1 ++ ['e', '+'] ++ natDigits (n - 1)

/-- The integer `n` for which `n / 100` is closest to `num / 2 ^ scale`, the larger one on a tie. -/
def roundHundredths (num scale : Nat) : Nat := (200 * num + 2 ^ scale) / 2 ^ (scale + 1)

/-- Number.prototype.toFixed called with 2 (ECMA-262 21.1.3.3). -/
def toFixed2 : JSNumber → List Char
  | .nan => "NaN".toList
  | .infinity false => "Infinity".toList
  | .infinity true => "-Infinity".toList
  | .finite negative num scale =>
    let s := if negative && num != 0 then ['-'] else []
    if 10 ^ 21 * 2 ^ scale ≤ num then s ++ largeToString num scale
    else
      let m := natDigits (roundHundredths num scale)
      let m := List.replicate (3 - m.length) '0' ++ m
      s ++ m.take (m.length - 2) ++ ['.'] ++ m.drop (m.length - 2)

/-- The pieces of a string between occurrences of the separator; `cur` is the piece being read,
reversed. -/
def splitAux (sep : Char) : List Char → List Char → List (List Char)
  | [], cur => [cur.reverse]
  | c :: cs, cur =>
    if c = sep then cur.reverse :: splitAux sep cs [] else splitAux sep cs (c :: cur)

/-- String.prototype.split with a one-character separator. -/
def split (sep : Char) (s : List Char) : List (List Char) := splitAux sep s []

/-- White space and line terminators that `parseInt` skips at the start of its argument. -/
def isStrWhiteSpace (c : Char) : Bool :=
  let n := c.toNat
  n = 0x9 || n = 0xA || n = 0xB || n = 0xC || n = 0xD || n = 0x20 || n = 0xA0 || n = 0x1680 ||
  (0x2000 ≤ n && n ≤ 0x200A) || n = 0x2028 || n = 0x2029 || n = 0x202F || n = 0x205F ||
  n = 0x3000 || n = 0xFEFF

/-- The part of `parseInt` after white space and sign are removed: an optional `0x` prefix selects
radix 16, then the leading digits are read. -/
def parseIntBody (negative : Bool) (s : List Char) : JSNumber :=
  let r :=
    match s with
    | '0' :: 'x' :: rest => readDigits 16 rest none
    | '0' :: 'X' :: rest => readDigits 16 rest none
    | _ => readDigits 10 s none
  match r with
  | none => .nan
  | some v => .finite negative v 0

/-- The global `parseInt` called with one argument (ECMA-262 19.2.5). -/
def parseInt (input : List Char) : JSNumber :=
  match input.dropWhile isStrWhiteSpace with
  | '-' :: rest => parseIntBody true rest
  | '+' :: rest => parseIntBody false rest
  | s => parseIntBody false s

/-- Groups of three digits counted from the right, given the digits least significant first;
returns the grouped text, still reversed. -/
def groupRev : List Char → List Char
  | a :: b :: c :: d :: rest => a :: b :: c :: '.' :: groupRev (d :: rest)
  | ds => ds

/-- Inserts `.` between each group of three digits counted from the right. -/
def groupThousands (digits : List Char) : List Char := (groupRev digits.reverse).reverse

/-- Removes trailing zeros of a fraction, keeping at least `minDigits` digits. -/
def trimFraction (minDigits : Nat) (frac : List Char) : List Char :=
  frac.take minDigits ++ ((frac.drop minDigits).reverse.dropWhile (· = '0')).reverse

/-- Number.prototype.toLocaleString for the locale `pt-BR` with the given `minimumFractionDigits`
(at most 3; the maximum is 3), as the engines format a double: the shortest decimal that reads
back as the double is rounded to three fraction digits, halves away from zero, and written with
`.` between thousands and `,` before the fraction.  An integer from about `2^54` on is thus
printed with its shortest digits followed by zeros, not with its exact digits. -/
def toLocaleStringPtBR (minFraction : Nat) : JSNumber → List Char
  | .nan => "NaN".toList
  | .infinity false => "∞".toList
  | .infinity true => "-∞".toList
  | .finite negative num scale =>
    let sp := shortestDecimal num scale
    let t := (2 * sp.1 * 10 ^ (sp.2 + 3) + 10 ^ scale) / (2 * 10 ^ scale)
    let frac := natDigits (t % 1000)
    let frac := trimFraction minFraction (List.replicate (3 - frac.length) '0' ++ frac)
    (if negative then ['-'] else []) ++ groupThousands (natDigits (t / 1000)) ++
      (if frac.isEmpty then [] else ',' :: frac)

/-! ## `formatPrice` -/

/-- The object `formatPrice` returns; `decimals` is `none` when `parts[1]` is `undefined`. -/
structure PriceParts where
  integer : String
  decimals : Option String
  deriving DecidableEq, Repr

/-- Format price to Brazilian Real (`formatPrice`, main.js 77-85). -/
def formatPrice (price : JSValue) : Except JSError PriceParts :=
  if !price.toBoolean && price.strictNeZero then .ok ⟨"0", some "00"⟩
  else
    match price with
    | .number x =>
      let parts := split '.' (toFixed2 x)
      let integer := toLocaleStringPtBR 0 (parseInt (parts.headD []))
      let decimals := parts[1]?
      .ok ⟨String.mk integer, decimals.map String.mk⟩
    | _ => .error (.typeError "price.toFixed is not a function")

/-- The decimal representation of a natural number, from the base-10 digits Mathlib computes. -/
def decimalString (n : Nat) : List Char :=
  if n = 0 then ['0'] else (Nat.digits 10 n).reverse.map digitChar

/-- Writes `.` between each group of three digits counted from the right: after a digit that is
followed by a positive multiple of three digits. -/
def insertDots : List Char → List Char
  | [] => []
  | c :: rest =>
    if rest.length % 3 = 0 ∧ rest ≠ [] then c :: '.' :: insertDots rest
    else c :: insertDots rest

/-- The result the specification describes for an amount that rounds to `cents / 100`: the whole
part in decimal with `.` between groups of three digits counted from the right (after the sign of
a negative amount), and the two fractional digits. -/
def specPriceParts (negative : Bool) (cents : Nat) : PriceParts :=
  ⟨String.mk ((if negative then ['-'] else []) ++ insertDots (decimalString (cents / 100))),
    some (String.mk [digitChar (cents % 100 / 10), digitChar (cents % 10)])⟩

/-- The number has the precision of an IEEE-754 double: a finite one is `m * 2 ^ e` with a
significand `m` below `2^53`.  (The exponent range plays no part in what follows.) -/
def JSNumber.IsDouble : JSNumber → Prop
  | .finite _ num _ => ∃ m k : Nat, m < 2 ^ 53 ∧ num = m * 2 ^ k
  | _ => True

/-- The whole numbers the engines print digit by digit: those below `2^53`, and the even ones
below `2^54`. -/
def PrintsExactly (N : Nat) : Prop := N < 2 ^ 53 ∨ (N < 2 ^ 54 ∧ N % 2 = 0)

/-! ## Unicode built-ins -/

/-- The two Unicode built-ins the script calls, `String.prototype.toLowerCase` and
`String.prototype.normalize("NFD")`.  They are defined by the Unicode Character Database, which is
not part of the script, so the functions that use them take them as a parameter. -/
structure UnicodeOps where
  toLowerCase : List Char → List Char
  normalizeNFD : List Char → List Char

/-- Code points matched by `[a-z0-9]`. -/
def isSlugAlnum (c : Char) : Bool :=
  (97 ≤ c.toNat && c.toNat ≤ 122) || (48 ≤ c.toNat && c.toNat ≤ 57)

/-- Lowercase ASCII letters, digits and the hyphen. -/
def isSlugChar (c : Char) : Bool := isSlugAlnum c || c == '-'

/-- What the Unicode standard guarantees about text made of lowercase ASCII letters, digits and
hyphens: lower-casing and canonical decomposition leave it unchanged. -/
def UnicodeOps.FixesSlugText (U : UnicodeOps) : Prop :=
  ∀ s : List Char, (∀ c ∈ s, isSlugChar c = true) → U.toLowerCase s = s ∧ U.normalizeNFD s = s

/-- Canonical decompositions of the code points below U+0100 that have one. -/
def latin1Decompositions : List (Nat × List Nat) :=
  [ (0xC0, [0x41, 0x300]), (0xC1, [0x41, 0x301]), (0xC2, [0x41, 0x302]), (0xC3, [0x41, 0x303]),
    (0xC4, [0x41, 0x308]), (0xC5, [0x41, 0x30A]), (0xC7, [0x43, 0x327]), (0xC8, [0x45, 0x300]),
    (0xC9, [0x45, 0x301]), (0xCA, [0x45, 0x302]), (0xCB, [0x45, 0x308]), (0xCC, [0x49, 0x300]),
    (0xCD, [0x49, 0x301]), (0xCE, [0x49, 0x302]), (0xCF, [0x49, 0x308]), (0xD1, [0x4E, 0x303]),
    (0xD2, [0x4F, 0x300]), (0xD3, [0x4F, 0x301]), (0xD4, [0x4F, 0x302]), (0xD5, [0x4F, 0x303]),
    (0xD6, [0x4F, 0x308]), (0xD9, [0x55, 0x300]), (0xDA, [0x55, 0x301]), (0xDB, [0x55, 0x302]),
    (0xDC, [0x55, 0x308]), (0xDD, [0x59, 0x301]), (0xE0, [0x61, 0x300]), (0xE1, [0x61, 0x301]),
    (0xE2, [0x61, 0x302]), (0xE3, [0x61, 0x303]), (0xE4, [0x61, 0x308]), (0xE5, [0x61, 0x30A]),
    (0xE7, [0x63, 0x327]), (0xE8, [0x65, 0x300]), (0xE9, [0x65, 0x301]), (0xEA, [0x65, 0x302]),
    (0xEB, [0x65, 0x308]), (0xEC, [0x69, 0x300]), (0xED, [0x69, 0x301]), (0xEE, [0x69, 0x302]),
    (0xEF, [0x69, 0x308]), (0xF1, [0x6E, 0x303]), (0xF2, [0x6F, 0x300]), (0xF3, [0x6F, 0x301]),
    (0xF4, [0x6F, 0x302]), (0xF5, [0x6F, 0x303]), (0xF6, [0x6F, 0x308]), (0xF9, [0x75, 0x300]),
    (0xFA, [0x75, 0x301]), (0xFB, [0x75, 0x302]), (0xFC, [0x75, 0x308]), (0xFD, [0x79, 0x301]),
    (0xFF, [0x79, 0x308]) ]

/-- Lower case of one code point below U+0100; other code points are returned as they are. -/
def latin1LowerChar (c : Char) : Char :=
  let n := c.toNat
  if (0x41 ≤ n && n ≤ 0x5A) || (0xC0 ≤ n && n ≤ 0xDE && n != 0xD7) then Char.ofNat (n + 0x20)
  else c

/-- Canonical decomposition of one code point below U+0100; other code points are returned as
they are. -/
def latin1DecomposeChar (c : Char) : List Char :=
  if c.toNat < 0xC0 then [c]
  else
    match latin1Decompositions.lookup c.toNat with
    | some ds => ds.map Char.ofNat
    | none => [c]

/-- The Unicode built-ins restricted to Basic Latin and Latin-1 Supplement (U+0000 to U+00FF),
where they agree with the Unicode tables; text outside that range is passed through.  Used to
evaluate the functions on Portuguese category names. -/
def latin1 : UnicodeOps where
  toLowerCase := fun s => s.map latin1LowerChar
  normalizeNFD := fun s => s.flatMap latin1DecomposeChar

/-! ## `slugify` -/

/-- Code points matched by `[\u0300-\u036f]` (combining diacritical marks). -/
def isCombiningMark (c : Char) : Bool := 0x300 ≤ c.toNat && c.toNat ≤ 0x36F

/-- The replacement `.replace(/[^a-z0-9]+/g, "-")`: each maximal run of code points outside
`[a-z0-9]` becomes one hyphen.  `inRun` tells that the run being read already produced its
hyphen. -/
def replaceRuns : Bool → List Char → List Char
  | _, [] => []
  | inRun, c :: cs =>
    if isSlugAlnum c then c :: replaceRuns false cs
    else if inRun then replaceRuns true cs
    else '-' :: replaceRuns true cs

/-- Removes a hyphen at the very start (the match of `^-`). -/
def trimStart : List Char → List Char
  | '-' :: rest => rest
  | s => s

/-- Removes a hyphen at the very end (the match of `-$`). -/
def trimEnd (s : List Char) : List Char :=
  if s.getLast? = some '-' then s.dropLast else s

/-- The replacement `.replace(/(^-|-$)/g, "")`: the matches are found left to right, so a leading
hyphen is removed first and a trailing hyphen is removed if one is left. -/
def trimHyphens (s : List Char) : List Char := trimEnd (trimStart s)

/-- The text `slugify` works on after lower-casing, decomposition and removal of the combining
marks U+0300 to U+036F. -/
def slugBase (U : UnicodeOps) (text : String) : List Char :=
  (U.normalizeNFD (U.toLowerCase text.data)).filter (fun c => !isCombiningMark c)

/-- Generate slug from text (`slugify`, main.js 105-112). -/
def slugify (U : UnicodeOps) (text : String) : String :=
  String.mk (trimHyphens (replaceRuns false (slugBase U text)))

/-- The maximal non-empty runs of `[a-z0-9]` code points of a text, in order. -/
def alnumWords (s : List Char) : List (List Char) :=
  (s.splitOnP (fun c => !isSlugAlnum c)).filter (fun w => !w.isEmpty)

/-- A list of non-empty words made of `[a-z0-9]` code points. -/
def GoodWords (l : List (List Char)) : Prop :=
  (∀ w ∈ l, w ≠ []) ∧ ∀ w ∈ l, ∀ c ∈ w, isSlugAlnum c = true

/-- The slug the specification describes: the `[a-z0-9]` runs of the text joined by single
hyphens, hence nothing at either end. -/
def specSlug (s : List Char) : List Char := List.intercalate ['-'] (alnumWords s)

/-! ## `getCategoryIcon` -/

/-- The table `CATEGORY_ICONS` (main.js 21-50) as `Object.entries` enumerates it: in insertion
order, the entry `default` last. -/
def CATEGORY_ICONS : List (String × String) :=
  [ ("eletrodomésticos", "🔌"), ("eletrônicos", "📱"), ("celulares", "📱"),
    ("computadores", "💻"), ("informática", "🖥️"), ("casa", "🏠"), ("móveis", "🛋️"),
    ("decoração", "🖼️"), ("moda", "👕"), ("roupas", "👗"), ("calçados", "👟"),
    ("beleza", "💄"), ("saúde", "💊"), ("esportes", "⚽"), ("fitness", "🏋️"),
    ("brinquedos", "🧸"), ("games", "🎮"), ("livros", "📚"), ("ferramentas", "🔧"),
    ("automotivo", "🚗"), ("bebês", "👶"), ("pet", "🐕"), ("alimentos", "🍎"),
    ("bebidas", "🥤"), ("jardim", "🌱"), ("papelaria", "✏️"), ("instrumentos", "🎸"),
    ("default", "📦") ]

/-- The property read `CATEGORY_ICONS.default`. -/
def CATEGORY_ICONS_default : String := (CATEGORY_ICONS.lookup "default").getD "undefined"

/-- String.prototype.includes: does `key` occur as a contiguous part of `name`? -/
def includes : List Char → List Char → Bool
  | [], key => key.isEmpty
  | c :: cs, key => key.isPrefixOf (c :: cs) || includes cs key

/-- The loop over `Object.entries(CATEGORY_ICONS)`: the icon of the first entry whose key occurs
in `name`. -/
def firstMatchingIcon (name : List Char) : List (String × String) → Option String
  | [] => none
  | (key, icon) :: rest =>
    if includes name key.data then some icon else firstMatchingIcon name rest

/-- Get category icon (`getCategoryIcon`, main.js 90-100). -/
def getCategoryIcon (U : UnicodeOps) (categoryName : String) : String :=
  let name := U.toLowerCase categoryName.data
  match firstMatchingIcon name CATEGORY_ICONS with
  | some icon => icon
  | none => CATEGORY_ICONS_default

/-! ## The catalog -/

/-- The price block of a product.  `current` is handed to `formatPrice`, which accepts any value;
`original` and `discount_percent` are a number or absent, as in the catalog's data model. -/
structure Price where
  current : JSValue
  original : Option JSNumber
  discount_percent : Option JSNumber
  deriving DecidableEq, Repr

/-- The shipping block of a product. -/
structure Shipping where
  free_shipping : Bool
  fulfillment : Bool
  deriving DecidableEq, Repr

/-- A product of the catalog. -/
structure Product where
  title : String
  image_url : String
  url : Option String
  affiliate_url : Option String
  ranking : Option Nat
  price : Option Price
  shipping : Option Shipping
  deriving DecidableEq, Repr

/-- A category of the catalog; `products` is `none` when the field is missing. -/
structure Category where
  name : String
  products : Option (List Product)
  deriving DecidableEq, Repr

/-- The parsed document; `categories` is `none` when the payload lacks the list (the field is
missing or falsy, so that `init` throws, or it is not an array, so that `filter` is not a function
and the call throws): either way the `catch` block of `init` runs before anything is rendered. -/
structure Catalog where
  categories : Option (List Category)
  deriving DecidableEq, Repr

/-! ## Rendered markup -/

/-- A navigation button written by `renderCategoriesNav`: `active` is the class
`category-btn--active`, `dataCategory` the attribute `data-category`. -/
structure NavButton where
  active : Bool
  dataCategory : String
  ariaSelected : Bool
  ariaControls : String
  icon : String
  name : String
  deriving DecidableEq, Repr

/-- A product card written by `renderProductCard`.  Each optional field is one conditional
fragment of the template: `rankingBadge` the badge `#N`, `discountBadge` the badge `N% OFF`,
`priceOriginal` the strikethrough element `product-card__price-original` with its text,
`priceDiscount` the inline `N% OFF`, `shipping` the free-shipping block (holding whether the
`FULL` sub-badge is inside). -/
structure ProductCard where
  href : Option String
  title : String
  imageSrc : String
  rankingBadge : Option Nat
  discountBadge : Option JSNumber
  priceOriginal : Option String
  priceContent : JSValue
  priceInteger : String
  priceDecimals : Option String
  priceDiscount : Option JSNumber
  shipping : Option Bool
  deriving DecidableEq, Repr

/-- A category section written by `renderCategorySection`. -/
structure CategorySection where
  id : String
  titleId : String
  icon : String
  name : String
  productCount : Nat
  cards : List ProductCard
  deriving DecidableEq, Repr

/-- What `#productsContainer` holds: the markup of the static page, the rendered sections, or the
error message of `showError`. -/
inductive Listing where
  | initial
  | sections (items : List CategorySection)
  | error (message : String)
  deriving DecidableEq, Repr

/-- The state the script keeps and the DOM regions it writes: `loadingHidden` is the class
`loading--hidden` of `#loading`, `categoriesList` the content of `#categoriesList`,
`totalProducts` and `totalCategories` the targets the two counters are animated to,
`backToTopVisible` the class `back-to-top--visible`, `listening` whether the event listeners are
attached. -/
structure Page where
  productsData : Option Catalog
  loadingHidden : Bool
  categoriesList : List NavButton
  productsContainer : Listing
  totalProducts : Option Nat
  totalCategories : Option Nat
  backToTopVisible : Bool
  listening : Bool
  deriving DecidableEq, Repr

/-- The elements of class `category-section` in the document. -/
def Page.sections (page : Page) : List CategorySection :=
  match page.productsContainer with
  | .sections items => items
  | _ => []

/-- `Array.prototype.map` with a callback that may throw: stops at the first exception. -/
def mapExcept {α β : Type} (f : α → Except JSError β) : List α → Except JSError (List β)
  | [] => .ok []
  | x :: xs =>
    match f x with
    | .error e => .error e
    | .ok y =>
      match mapExcept f xs with
      | .error e => .error e
      | .ok ys => .ok (y :: ys)

/-! ## Rendering functions -/

/-- One button of the navigation template (main.js 163-173).  The template is a string and the
name is put into it as it is; the record is the element the HTML parser builds from that string
when the name is plain text (`isPlainText`), which the statements about rendered pages assume. -/
def navButton (U : UnicodeOps) (index : Nat) (category : Category) : NavButton :=
  let slug := slugify U category.name
  let icon := getCategoryIcon U category.name
  { active := index == 0
    dataCategory := slug
    ariaSelected := index == 0
    ariaControls := "section-" ++ slug
    icon := icon
    name := category.name }

/-- The buttons for the categories from position `index` on. -/
def navButtons (U : UnicodeOps) : Nat → List Category → List NavButton
  | _, [] => []
  | index, category :: rest => navButton U index category :: navButtons U (index + 1) rest

/-- Render category navigation buttons (`renderCategoriesNav`, main.js 157-178). -/
def renderCategoriesNav (U : UnicodeOps) (categories : List Category) (page : Page) : Page :=
  { page with categoriesList := navButtons U 0 categories }

/-- The value of `product.price?.current`. -/
def Product.currentPrice (product : Product) : JSValue :=
  match product.price with
  | some price => price.current
  | none => .undefined

/-- The value of `product.price?.original`, `none` when absent. -/
def Product.originalPrice (product : Product) : Option JSNumber :=
  product.price.bind (·.original)

/-- The value of `product.price?.discount_percent`, `none` when absent. -/
def Product.discountPercent (product : Product) : Option JSNumber :=
  product.price.bind (·.discount_percent)

/-- Render a single product card (`renderProductCard`, main.js 183-306).  The title, the image
address and the link address are put into the markup as they are; the record is the element the
HTML parser builds from it when they are plain text (`Product.isPlain`). -/
def renderProductCard (product : Product) (_categorySlug : String) : Except JSError ProductCard :=
  match formatPrice product.currentPrice with
  | .error e => .error e
  | .ok price =>
    let originalPrice := product.originalPrice
    let discount := product.discountPercent
    let hasDiscount :=
      match discount with
      | some d => d.toBoolean && d.gtZero
      | none => false
    let hasFreeShipping :=
      match product.shipping with
      | some s => s.free_shipping
      | none => false
    let hasFulfillment :=
      match product.shipping with
      | some s => s.fulfillment
      | none => false
    let affiliateUrl :=
      match product.affiliate_url with
      | some a => if a != "" then some a else product.url
      | none => product.url
    .ok
      { href := affiliateUrl
        title := product.title
        imageSrc := product.image_url
        rankingBadge :=
          match product.ranking with
          | some r => if r != 0 then some r else none
          | none => none
        discountBadge := if hasDiscount then discount else none
        priceOriginal :=
          match originalPrice with
          | some o =>
            if o.toBoolean && hasDiscount then
              some (String.mk ("R$ ".toList ++ toLocaleStringPtBR 2 o))
            else none
          | none => none
        priceContent := product.currentPrice
        priceInteger := price.integer
        priceDecimals := price.decimals
        priceDiscount := if hasDiscount then discount else none
        shipping := if hasFreeShipping then some hasFulfillment else none }

/-- Render category section with products (`renderCategorySection`, main.js 311-339).  The name is
put into the markup as it is; the record is the element the HTML parser builds from it when the
name and the products are plain text (`Category.isPlain`).  The message of the TypeError is the
one V8 gives. -/
def renderCategorySection (U : UnicodeOps) (category : Category) :
    Except JSError CategorySection :=
  let slug := slugify U category.name
  let icon := getCategoryIcon U category.name
  match category.products with
  | none => .error (.typeError "Cannot read properties of undefined (reading \x27length\x27)")
  | some products =>
    match mapExcept (fun product => renderProductCard product slug) products with
    | .error e => .error e
    | .ok cards =>
      .ok
        { id := "section-" ++ slug
          titleId := "title-" ++ slug
          icon := icon
          name := category.name
          productCount := products.length
          cards := cards }

/-- Render all products (`renderProducts`, main.js 344-350): the container is written only after
every section has been produced. -/
def renderProducts (U : UnicodeOps) (categories : List Category) (page : Page) :
    Except JSError Page :=
  match mapExcept (renderCategorySection U) categories with
  | .error e => .error e
  | .ok items => .ok { page with productsContainer := .sections items }

/-- The reduction of `updateStats`: the sum of `cat.products.length`. -/
def countProducts : List Category → Nat → Except JSError Nat
  | [], sum => .ok sum
  | category :: rest, sum =>
    match category.products with
    | none => .error (.typeError "Cannot read properties of undefined (reading \x27length\x27)")
    | some products => countProducts rest (sum + products.length)

/-- Update statistics (`updateStats`, main.js 355-364): starts the two count-up animations; the
fields hold their targets. -/
def updateStats (categories : List Category) (page : Page) : Except JSError Page :=
  match countProducts categories 0 with
  | .error e => .error e
  | .ok totalProducts =>
    .ok { page with totalProducts := some totalProducts, totalCategories := some categories.length }

/-- Show error message (`showError`, main.js 395-402). -/
def showError (message : String) (page : Page) : Page :=
  { page with productsContainer := .error message }

/-! ## Event handlers -/

/-- Removes the active class from a button and sets `aria-selected` to false. -/
def NavButton.deactivate (b : NavButton) : NavButton :=
  { b with active := false, ariaSelected := false }

/-- Adds the active class to a button and sets `aria-selected` to true. -/
def NavButton.activate (b : NavButton) : NavButton :=
  { b with active := true, ariaSelected := true }

/-- The update of the active state shared by both handlers: every button is deactivated, then the
button at position `k` is activated. -/
def activateOnly (k : Nat) (buttons : List NavButton) : List NavButton :=
  let cleared := buttons.map NavButton.deactivate
  match cleared[k]? with
  | some b => cleared.set k b.activate
  | none => cleared

/-- Handle category button click (`handleCategoryClick`, main.js 411-430).  `target` is the
position of the button `event.target.closest(".category-btn")` finds, if it finds one. -/
def handleCategoryClick (target : Option Nat) (page : Page) : Page :=
  match target with
  | none => page
  | some k =>
    match page.categoriesList[k]? with
    | none => page
    | some btn =>
      if page.sections.any (fun s => s.id == "section-" ++ btn.dataCategory) then
        { page with categoriesList := activateOnly k page.categoriesList }
      else page

/-- The layout values `offsetTop` and `offsetHeight` of a section. -/
structure Span where
  top : Int
  height : Int
  deriving DecidableEq, Repr

/-- `String.prototype.replace` with a non-empty string pattern and the empty replacement: the
first occurrence of the pattern is removed. -/
def removeFirst (pattern : List Char) : List Char → List Char
  | [] => []
  | c :: cs =>
    if pattern.isPrefixOf (c :: cs) then (c :: cs).drop pattern.length
    else c :: removeFirst pattern cs

/-- `document.querySelector` for `.category-btn[data-category="slug"]`: the position of the first
button with that attribute value. -/
def findButton (slug : String) : List NavButton → Option Nat
  | [] => none
  | b :: rest => if b.dataCategory == slug then some 0 else (findButton slug rest).map (· + 1)

/-- The callback of `sections.forEach` in `updateActiveCategoryOnScroll`, on the section at
position `index`. -/
def scrollStep (layout : Nat → Span) (probe : Int) (index : Nat) (s : CategorySection)
    (buttons : List NavButton) : List NavButton :=
  let top := (layout index).top
  let height := (layout index).height
  let slug := String.mk (removeFirst "section-".toList s.id.data)
  if top ≤ probe ∧ probe < top + height then
    match findButton slug buttons with
    | none => buttons
    | some k =>
      match buttons[k]? with
      | none => buttons
      | some btn => if !btn.active then activateOnly k buttons else buttons
  else buttons

/-- The loop `sections.forEach` from position `index` on. -/
def scrollLoop (layout : Nat → Span) (probe : Int) :
    Nat → List CategorySection → List NavButton → List NavButton
  | _, [], buttons => buttons
  | index, s :: rest, buttons =>
    scrollLoop layout probe (index + 1) rest (scrollStep layout probe index s buttons)

/-- Update active category based on scroll position (`updateActiveCategoryOnScroll`,
main.js 451-481); `layout` gives the span of the section at each position. -/
def updateActiveCategoryOnScroll (layout : Nat → Span) (scrollY : Int) (page : Page) : Page :=
  { page with
    categoriesList := scrollLoop layout (scrollY + 200) 0 page.sections page.categoriesList }

/-- The function `handleScroll` debounces (main.js 435-446). -/
def handleScroll (layout : Nat → Span) (scrollY : Int) (page : Page) : Page :=
  updateActiveCategoryOnScroll layout scrollY { page with backToTopVisible := decide (scrollY > 500) }

/-! ## Initialization -/

/-- Hide loading overlay (`hideLoading`, main.js 497-502): the class is added at once. -/
def hideLoading (page : Page) : Page := { page with loadingHidden := true }

/-- Initialize event listeners (`initEventListeners`, main.js 507-516). -/
def initEventListeners (page : Page) : Page := { page with listening := true }

/-- What `response.json()` gives: a rejection, or the parsed document (`none` for a falsy one such
as `null`). -/
inductive Body where
  | invalid
  | value (data : Option Catalog)
  deriving DecidableEq, Repr

/-- The outcome of the one call of `fetch`. -/
inductive FetchOutcome where
  | networkError
  | response (status : Nat) (body : Body)
  deriving DecidableEq, Repr

/-- The property `response.ok`. -/
def statusOk (status : Nat) : Bool := 200 ≤ status && status ≤ 299

/-- Loads the catalog (`loadProductsData`, main.js 133-148). -/
def loadProductsData (fetched : FetchOutcome) (page : Page) : Option Catalog × Page :=
  let failed := (none, showError "Erro ao carregar produtos. Por favor, recarregue a página." page)
  match fetched with
  | .networkError => failed
  | .response status body =>
    if !statusOk status then failed
    else
      match body with
      | .invalid => failed
      | .value data => (data, { page with productsData := data })

/-- The `catch` block of `init`. -/
def initCatch (page : Page) : Page :=
  showError "Ocorreu um erro ao carregar a página. Por favor, tente novamente." (hideLoading page)

/-- The filter of `init`: categories with a non-empty product list. -/
def hasProducts (category : Category) : Bool :=
  match category.products with
  | some products => decide (products.length > 0)
  | none => false

/-- Main initialization (`init`, main.js 521-555). -/
def init (U : UnicodeOps) (fetched : FetchOutcome) (page : Page) : Page :=
  let loaded := loadProductsData fetched page
  match loaded.1 with
  | none => initCatch loaded.2
  | some data =>
    match data.categories with
    | none => initCatch loaded.2
    | some categories =>
      let validCategories := categories.filter hasProducts
      let page1 := renderCategoriesNav U validCategories loaded.2
      match renderProducts U validCategories page1 with
      | .error _ => initCatch page1
      | .ok page2 =>
        match updateStats validCategories page2 with
        | .error _ => initCatch page2
        | .ok page3 => hideLoading (initEventListeners page3)

/-! ## Vocabulary of the specification -/

/-- A number, or a falsy value: the inputs on which `formatPrice` returns. -/
def JSValue.isNumberOrFalsy : JSValue → Bool
  | .number _ => true
  | v => !v.toBoolean

/-- The product list of a category, empty when the field is missing. -/
def Category.productList (category : Category) : List Product := category.products.getD []

/-- The categories whose product list is non-empty, in their original order. -/
def nonEmptyCategories (categories : List Category) : List Category :=
  categories.filter (fun c => !c.productList.isEmpty)

/-- Characters the HTML parser does not keep as literal text: `<` opens a tag, `&` opens a
character reference, the double quote closes an attribute value, and carriage return and NUL are
replaced by other characters. -/
def isMarkupChar (c : Char) : Bool :=
  c == '<' || c == '&' || c.toNat == 0x22 || c.toNat == 0x0D || c.toNat == 0

/-- The string is plain text: put into markup that is assigned to `innerHTML`, inside element
content or inside a double-quoted attribute value, it is read back as the same text and adds no
element or attribute to the document. -/
def isPlainText (s : String) : Bool := s.data.all (fun c => !isMarkupChar c)

/-- The strings the card template takes from the product (`title`, `image_url`, and
`affiliate_url || url`) are plain text. -/
def Product.isPlain (product : Product) : Bool :=
  isPlainText product.title && isPlainText product.image_url &&
    match product.affiliate_url with
    | some a => if a != "" then isPlainText a else (product.url.map isPlainText).getD true
    | none => (product.url.map isPlainText).getD true

/-- The name of the category and the strings of its products are plain text. -/
def Category.isPlain (category : Category) : Bool :=
  isPlainText category.name && category.productList.all Product.isPlain

/-- The number of navigation controls marked active. -/
def activeCount (buttons : List NavButton) : Nat := buttons.countP (·.active)

/-- Initialization fails before anything is rendered: transport error, non-success status,
unreadable body, falsy document, or payload without a categories list. -/
def failsBeforeRender : FetchOutcome → Bool
  | .networkError => true
  | .response status body =>
    !statusOk status ||
      match body with
      | .invalid => true
      | .value none => true
      | .value (some data) => data.categories.isNone

/-- An exception is thrown while the product sections are rendered. -/
def renderThrows (U : UnicodeOps) : FetchOutcome → Bool
  | .response status (.value (some ⟨some categories⟩)) =>
    statusOk status &&
      match mapExcept (renderCategorySection U) (categories.filter hasProducts) with
      | .error _ => true
      | .ok _ => false
  | _ => false

/-- The categories list of the fetched document, if the fetch delivered one. -/
def FetchOutcome.categories : FetchOutcome → Option (List Category)
  | .response _ (.value (some data)) => data.categories
  | _ => none

/-- The message `init` shows when it fails. -/
def initErrorMessage : String :=
  "Ocorreu um erro ao carregar a página. Por favor, tente novamente."

/-- The probe point lies within the span `[top, top + height)`. -/
def Span.contains (span : Span) (probe : Int) : Prop :=
  span.top ≤ probe ∧ probe < span.top + span.height

instance (span : Span) (probe : Int) : Decidable (span.contains probe) := by
  unfold Span.contains
  exact inferInstance

/-- A page on which nothing has been rendered yet. -/
def blankPage : Page :=
  { productsData := none, loadingHidden := false, categoriesList := [], productsContainer := .initial,
    totalProducts := none, totalCategories := none, backToTopVisible := false, listening := false }

/-- A product with the given price block and no other optional field. -/
def sampleProduct (title : String) (price : Price) : Product :=
  { title := title, image_url := "img.jpg", url := some "https://example.com/p", affiliate_url := none,
    ranking := none, price := some price, shipping := none }

/-- The whole number `n` as a JavaScript number. -/
def JSNumber.ofNat (n : Nat) : JSNumber := .finite false n 0

/-- A product with current price 80, original price 100 and `discount_percent` 20. -/
def discountedProduct : Product :=
  sampleProduct "Fone" ⟨.number (.ofNat 80), some (.ofNat 100), some (.ofNat 20)⟩

/-- The card of `discountedProduct`. -/
def discountedCard : ProductCard :=
  { href := some "https://example.com/p", title := "Fone", imageSrc := "img.jpg",
    rankingBadge := none, discountBadge := some (.ofNat 20), priceOriginal := some "R$ 100,00",
    priceContent := .number (.ofNat 80), priceInteger := "80", priceDecimals := some "00",
    priceDiscount := some (.ofNat 20), shipping := none }

/-- A product with both prices and no discount. -/
def plainProduct : Product :=
  sampleProduct "Cabo" ⟨.number (.ofNat 80), some (.ofNat 100), none⟩

/-- A product with current price 80, original price 0 and `discount_percent` 20. -/
def zeroOriginalProduct : Product :=
  sampleProduct "Fone" ⟨.number (.ofNat 80), some (.ofNat 0), some (.ofNat 20)⟩

/-- The card of `plainProduct`. -/
def plainCard : ProductCard :=
  { href := some "https://example.com/p", title := "Cabo", imageSrc := "img.jpg",
    rankingBadge := none, discountBadge := none, priceOriginal := none,
    priceContent := .number (.ofNat 80), priceInteger := "80", priceDecimals := some "00",
    priceDiscount := none, shipping := none }

/-- A catalog of two categories, the first without products and the second with three. -/
def sampleCatalog : List Category :=
  [ { name := "Moda", products := some [] },
    { name := "Casa", products := some
        [ sampleProduct "Sofá" ⟨.number (.ofNat 1500), some (.ofNat 2000), some (.ofNat 25)⟩,
          sampleProduct "Mesa" ⟨.number (.finite false 2469 1), none, none⟩,
          sampleProduct "Cadeira" ⟨.number (.ofNat 300), none, some (.ofNat 0)⟩ ] } ]

/-- The pages the script shows once `init` has succeeded with the non-empty categories `shown`:
the page `init` leaves, and every page reached from it by clicks in the navigation and by handled
scroll events.  The shown categories are plain text, so that the elements of the document are the
ones the templates spell out. -/
inductive Rendered (U : UnicodeOps) (shown : List Category) : Page → Prop where
  | loaded (fetched : FetchOutcome) (categories : List Category) (page : Page)
      (hcats : fetched.categories = some categories)
      (hshown : nonEmptyCategories categories = shown)
      (hplain : ∀ c ∈ shown, c.isPlain = true)
      (hload : failsBeforeRender fetched = false) (hrender : renderThrows U fetched = false) :
      Rendered U shown (init U fetched page)
  | click (target : Option Nat) (page : Page) (h : Rendered U shown page) :
      Rendered U shown (handleCategoryClick target page)
  | scroll (layout : Nat → Span) (scrollY : Int) (page : Page) (h : Rendered U shown page) :
      Rendered U shown (handleScroll layout scrollY page)

/-- Exactly the button at position `b` is marked active. -/
def OnlyActive (b : Nat) (buttons : List NavButton) : Prop :=
  ∀ k btn, buttons[k]? = some btn → (btn.active = true ↔ k = b)

/-- A catalog whose only product has the string "99.90" as current price. -/
def stringPriceCatalog : List Category :=
  [ { name := "Casa", products := some [sampleProduct "Sofá" ⟨.string "99.90", none, none⟩] } ]

/-- A catalog of two categories whose names have the same slug, "casa". -/
def collidingCatalog : List Category :=
  [ { name := "Casa", products := some [sampleProduct "Sofá" ⟨.number (.ofNat 1500), none, none⟩] },
    { name := "CASA", products := some [sampleProduct "Mesa" ⟨.number (.ofNat 700), none, none⟩] } ]

/-- A catalog of two categories with different slugs, "casa" and "moda". -/
def twoCategoryCatalog : List Category :=
  [ { name := "Casa", products := some [sampleProduct "Sofá" ⟨.number (.ofNat 1500), none, none⟩] },
    { name := "Moda", products := some [sampleProduct "Saia" ⟨.number (.ofNat 70), none, none⟩] } ]

/-- Sections stacked from offset 100, each 500 high. -/
def stackedLayout (index : Nat) : Span := { top := 100 + 500 * index, height := 500 }

/-! ## Decimal digits: the representation and reading it back -/

theorem digitsAux_eq (n : Nat) : ∀ fuel acc, n < fuel → digitsAux fuel n acc = natDigits n ++ acc := by
  induction n using Nat.strong_induction_on with
  | _ n ih =>
    intro fuel acc hf
    obtain ⟨f, rfl⟩ : ∃ f, fuel = f + 1 := ⟨fuel - 1, by omega⟩
    by_cases h : n < 10
    · simp [natDigits, digitsAux, h]
    · have h1 : n / 10 < n := by omega
      have h2 : n / 10 < f := by omega
      simp only [natDigits, digitsAux, h, if_false]
      rw [ih _ h1 _ _ h2, ih _ h1 _ _ h1]
      simp

theorem natDigits_small (n : Nat) (h : n < 10) : natDigits n = [digitChar n] := by
  simp [natDigits, digitsAux, h]

theorem natDigits_step (n : Nat) (h : 10 ≤ n) :
    natDigits n = natDigits (n / 10) ++ [digitChar (n % 10)] := by
  have h1 : n / 10 < n := by omega
  have h2 : ¬ n < 10 := by omega
  simp only [natDigits, digitsAux, h2, if_false]
  rw [digitsAux_eq _ _ _ h1]
  rfl

theorem digitChar_toNat (d : Nat) : (digitChar d).toNat = 48 + d % 10 := by
  have h : d % 10 < 10 := Nat.mod_lt _ (by decide)
  unfold digitChar
  generalize d % 10 = r at h
  interval_cases r <;> rfl

theorem isDigit_digitChar (d : Nat) : isDigit (digitChar d) = true := by
  have h : d % 10 < 10 := Nat.mod_lt _ (by decide)
  simp only [isDigit, digitChar_toNat, Bool.and_eq_true, decide_eq_true_eq]
  omega

theorem natDigits_allDigits (n : Nat) : ∀ c ∈ natDigits n, isDigit c = true := by
  induction n using Nat.strong_induction_on with
  | _ n ih =>
    by_cases h : n < 10
    · intro c hc
      rw [natDigits_small n h] at hc
      simp only [List.mem_singleton] at hc
      subst hc
      exact isDigit_digitChar n
    · intro c hc
      rw [natDigits_step n (by omega)] at hc
      rcases List.mem_append.mp hc with hc | hc
      · exact ih (n / 10) (by omega) c hc
      · simp only [List.mem_singleton] at hc
        subst hc
        exact isDigit_digitChar _

theorem radixValue_digitChar (d : Nat) : radixValue 10 (digitChar d) = some (d % 10) := by
  simp [radixValue, isDigit_digitChar, digitChar_toNat]

theorem readDigits_append (xs : List Char) (hxs : ∀ c ∈ xs, isDigit c = true) (d : Nat) :
    ∀ acc, readDigits 10 (xs ++ [digitChar d]) acc
      = some ((readDigits 10 xs acc).getD 0 * 10 + d % 10) := by
  induction xs with
  | nil =>
    intro acc
    simp [readDigits, radixValue_digitChar]
  | cons x xs ih =>
    intro acc
    have hx : isDigit x = true := hxs x (List.mem_cons_self _ _)
    have hrest : ∀ c ∈ xs, isDigit c = true := fun c hc => hxs c (List.mem_cons_of_mem _ hc)
    simp only [List.cons_append, readDigits, radixValue, hx, if_true]
    simp only [show ¬ (10 = 16) by decide, if_false]
    exact ih hrest _

theorem readDigits_natDigits (n : Nat) : readDigits 10 (natDigits n) none = some n := by
  induction n using Nat.strong_induction_on with
  | _ n ih =>
    by_cases h : n < 10
    · rw [natDigits_small n h]
      simp [readDigits, radixValue_digitChar, Nat.mod_eq_of_lt h]
    · rw [natDigits_step n (by omega), readDigits_append _ (natDigits_allDigits _), ih _ (by omega)]
      simp only [Option.getD_some]
      congr 1
      omega

theorem natDigits_ne_nil (n : Nat) : natDigits n ≠ [] := by
  by_cases h : n < 10
  · rw [natDigits_small n h]; simp
  · rw [natDigits_step n (by omega)]; simp

/-- The digits `toFixed` splits: padded to three, they are the digits of the whole part followed by
the two digits of the hundredths. -/
theorem padded_digits (c : Nat) :
    List.replicate (3 - (natDigits c).length) '0' ++ natDigits c
      = natDigits (c / 100) ++ [digitChar (c % 100 / 10), digitChar (c % 10)] := by
  by_cases h1 : c < 10
  · rw [natDigits_small c h1, natDigits_small (c / 100) (by omega)]
    have e1 : c / 100 = 0 := by omega
    have e2 : c % 100 / 10 = 0 := by omega
    have e3 : c % 10 = c := by omega
    rw [e1, e2]
    simp [digitChar, e3]
  · by_cases h2 : c < 100
    · rw [natDigits_step c (by omega), natDigits_small (c / 10) (by omega),
        natDigits_small (c / 100) (by omega)]
      have e1 : c / 100 = 0 := by omega
      have e2 : c % 100 / 10 = c / 10 := by omega
      rw [e1, e2]
      simp [digitChar]
    · rw [natDigits_step c (by omega), natDigits_step (c / 10) (by omega)]
      have e1 : c / 10 / 10 = c / 100 := by omega
      have e2 : c / 10 % 10 = c % 100 / 10 := by omega
      have hlen : 3 - (natDigits (c / 10 / 10) ++ [digitChar (c / 10 % 10)]
          ++ [digitChar (c % 10)]).length = 0 := by
        have := List.length_pos.mpr (natDigits_ne_nil (c / 10 / 10))
        simp only [List.length_append, List.length_singleton]
        omega
      rw [hlen, e1, e2]
      simp

theorem splitAux_no_sep (sep : Char) (b : List Char) (hb : sep ∉ b) :
    ∀ cur, splitAux sep b cur = [cur.reverse ++ b] := by
  induction b with
  | nil => intro cur; simp [splitAux]
  | cons x xs ih =>
    intro cur
    have hx : x ≠ sep := fun h => hb (h ▸ List.mem_cons_self _ _)
    have hxs : sep ∉ xs := fun h => hb (List.mem_cons_of_mem _ h)
    simp [splitAux, hx, ih hxs]

theorem splitAux_append (sep : Char) (a b : List Char) (ha : sep ∉ a) (hb : sep ∉ b) :
    ∀ cur, splitAux sep (a ++ sep :: b) cur = [cur.reverse ++ a, b] := by
  induction a with
  | nil => intro cur; simp [splitAux, splitAux_no_sep sep b hb]
  | cons x xs ih =>
    intro cur
    have hx : x ≠ sep := fun h => ha (h ▸ List.mem_cons_self _ _)
    have hxs : sep ∉ xs := fun h => ha (List.mem_cons_of_mem _ h)
    simp [splitAux, hx, ih hxs]

theorem split_two (a b : List Char) (ha : '.' ∉ a) (hb : '.' ∉ b) :
    split '.' (a ++ '.' :: b) = [a, b] := by
  simp [split, splitAux_append '.' a b ha hb]

theorem not_digit_of_eq {c : Char} (d : Char) (hd : isDigit d = false) (h : isDigit c = true) :
    c ≠ d := by
  intro e; subst e; rw [hd] at h; exact Bool.noConfusion h

theorem parseIntBody_digits (negative : Bool) (n : Nat) :
    parseIntBody negative (natDigits n) = .finite negative n 0 := by
  have hall := natDigits_allDigits n
  have hr := readDigits_natDigits n
  unfold parseIntBody
  generalize natDigits n = ds at hall hr
  match ds, hall, hr with
  | [], _, hr => simp [readDigits] at hr
  | [a], _, hr => simp only [hr]
  | a :: b :: rest, hall, hr =>
    have hb : isDigit b = true := hall b (by simp)
    have hx : b ≠ 'x' := not_digit_of_eq 'x' (by decide) hb
    have hX : b ≠ 'X' := not_digit_of_eq 'X' (by decide) hb
    split
    · rename_i heq; simp only [List.cons.injEq] at heq; exact absurd heq.2.1 hx
    · rename_i heq; simp only [List.cons.injEq] at heq; exact absurd heq.2.1 hX
    · simp only [hr]

theorem parseInt_signed_digits (negative : Bool) (n : Nat) :
    parseInt ((if negative then ['-'] else []) ++ natDigits n) = .finite negative n 0 := by
  cases negative with
  | true =>
    simp only [if_true, List.singleton_append]
    unfold parseInt
    rw [List.dropWhile_cons_of_neg (by decide)]
    exact parseIntBody_digits true n
  | false =>
    simp only [Bool.false_eq_true, if_false, List.nil_append]
    have hall := natDigits_allDigits n
    have hne := natDigits_ne_nil n
    have hb := parseIntBody_digits false n
    unfold parseInt
    generalize natDigits n = ds at hall hne hb
    match ds, hall, hne, hb with
    | [], _, hne, _ => exact absurd rfl hne
    | a :: rest, hall, _, hb =>
      have ha : isDigit a = true := hall a (by simp)
      have hws : ¬ isStrWhiteSpace a = true := by
        intro hw
        simp only [isDigit, Bool.and_eq_true, decide_eq_true_eq] at ha
        simp only [isStrWhiteSpace, Bool.or_eq_true, Bool.and_eq_true, decide_eq_true_eq] at hw
        omega
      rw [List.dropWhile_cons_of_neg hws]
      have hm : a ≠ '-' := not_digit_of_eq '-' (by decide) ha
      have hp : a ≠ '+' := not_digit_of_eq '+' (by decide) ha
      split
      · rename_i heq; simp only [List.cons.injEq] at heq; exact absurd heq.1 hm
      · rename_i heq; simp only [List.cons.injEq] at heq; exact absurd heq.1 hp
      · exact hb

/-! ## Shortest digits of a whole number -/

theorem log2Aux_le : ∀ (fuel n k : Nat), n < 2 ^ (k + 1) → log2Aux fuel n ≤ k := by
  intro fuel
  induction fuel with
  | zero => intro n k _; exact Nat.zero_le k
  | succ fuel ih =>
    intro n k h
    by_cases h2 : n < 2
    · simp [log2Aux, h2]
    · simp only [log2Aux, h2, if_false]
      cases k with
      | zero => simp at h; omega
      | succ k =>
        have hhalf : n / 2 < 2 ^ (k + 1) := by
          rw [Nat.div_lt_iff_lt_mul (by decide)]
          rw [Nat.pow_succ] at h
          exact h
        have := ih (n / 2) k hhalf
        omega

theorem bitLength_le (n k : Nat) (h : n < 2 ^ k) : bitLength n ≤ k := by
  unfold bitLength
  by_cases h0 : n = 0
  · simp [h0]
  · simp only [h0, if_false]
    cases k with
    | zero => simp at h; omega
    | succ k =>
      have := log2Aux_le n n k h
      omega

/-- For a whole number below `2 ^ b` every value that rounds to it lies within `2 ^ (b + 1)`
units, that is `2 ^ (b - 54)`, of it. -/
theorem roundingInterval_whole (N b : Nat) (hN : N < 2 ^ b) :
    (roundingInterval N 0).center = N * 2 ^ 55 ∧
      ∀ v, (roundingInterval N 0).contains v = true →
        N * 2 ^ 55 - 2 ^ (b + 1) ≤ v ∧ v ≤ N * 2 ^ 55 + 2 ^ (b + 1) := by
  have hL := bitLength_le N b hN
  have hh : max (bitLength N + 1) (0 - 1020) = bitLength N + 1 := by simp
  have hpow : 2 ^ (bitLength N + 1) ≤ 2 ^ (b + 1) :=
    Nat.pow_le_pow_right (by decide) (by omega)
  refine ⟨by simp [roundingInterval], ?_⟩
  intro v hv
  simp only [RoundingInterval.contains, roundingInterval, hh, pow_zero, Nat.mul_one] at hv
  have hdiv : 2 ^ (bitLength N + 1) / 2 ≤ 2 ^ (bitLength N + 1) := Nat.div_le_self _ _
  generalize 2 ^ (bitLength N + 1) = half at hv hpow hdiv
  generalize 2 ^ (b + 1) = bound at hpow ⊢
  generalize N * 2 ^ 55 = c at hv ⊢
  split at hv
  · simp only [Bool.and_eq_true, decide_eq_true_eq] at hv
    obtain ⟨h1, h2⟩ := hv
    split at h1 <;> omega
  · simp only [Bool.and_eq_true, decide_eq_true_eq] at hv
    obtain ⟨h1, h2⟩ := hv
    split at h1 <;> omega

theorem closestMultiple_spec (I : RoundingInterval) (P v : Nat)
    (h : closestMultiple I P = some v) : ∃ k, v = k * P ∧ I.contains v = true := by
  have hb : I.center / P * P + P = (I.center / P + 1) * P := by
    rw [Nat.add_mul, Nat.one_mul]
  unfold closestMultiple at h
  simp only at h
  split at h
  · rename_i ha hbc
    simp only [Bool.and_eq_true] at ha
    split at h
    · simp only [Option.some.injEq] at h
      exact ⟨_, h.symm, h ▸ ha.2⟩
    · split at h
      · simp only [Option.some.injEq] at h
        exact ⟨_, h ▸ hb, h ▸ hbc⟩
      · split at h
        · simp only [Option.some.injEq] at h
          exact ⟨_, h.symm, h ▸ ha.2⟩
        · simp only [Option.some.injEq] at h
          exact ⟨_, h ▸ hb, h ▸ hbc⟩
  · rename_i ha _
    simp only [Bool.and_eq_true] at ha
    simp only [Option.some.injEq] at h
    exact ⟨_, h.symm, h ▸ ha.2⟩
  · rename_i _ hbc
    simp only [Option.some.injEq] at h
    exact ⟨_, h ▸ hb, h ▸ hbc⟩
  · exact absurd h (by simp)

/-- A multiple of a positive power of ten that rounds to a whole number the engines print
exactly is that number. -/
theorem multiple_eq_of_contains (N q k : Nat) (hN : PrintsExactly N)
    (h : (roundingInterval N 0).contains (k * (10 ^ (q + 1) * 2 ^ 55)) = true) :
    k * 10 ^ (q + 1) = N := by
  have heven : k * 10 ^ (q + 1) = 2 * (k * (5 * 10 ^ q)) := by
    rw [Nat.pow_succ]
    ring
  have hv : k * (10 ^ (q + 1) * 2 ^ 55) = (k * 10 ^ (q + 1)) * 2 ^ 55 := by ring
  rw [hv] at h
  generalize k * 10 ^ (q + 1) = y at h heven ⊢
  generalize k * (5 * 10 ^ q) = y2 at heven
  rcases hN with h53 | ⟨h54, hpar⟩
  · have hb := ((roundingInterval_whole N 53 h53).2 _ h)
    norm_num at hb
    omega
  · have hb := ((roundingInterval_whole N 54 h54).2 _ h)
    norm_num at hb
    omega

theorem shortestSearch_exact (N : Nat) (hN : PrintsExactly N) :
    ∀ fuel, (shortestSearch (roundingInterval N 0) fuel).1
      * 10 ^ (shortestSearch (roundingInterval N 0) fuel).2 = N := by
  have hcenter : (roundingInterval N 0).center = N * 2 ^ 55 := by simp [roundingInterval]
  intro fuel
  induction fuel with
  | zero =>
    simp only [shortestSearch, hcenter, pow_zero, Nat.mul_one]
    exact Nat.mul_div_cancel _ (Nat.pow_pos (by decide))
  | succ q ih =>
    unfold shortestSearch
    cases hc : closestMultiple (roundingInterval N 0) (10 ^ (q + 1) * 2 ^ 55) with
    | none => exact ih
    | some v =>
      obtain ⟨k, rfl, hin⟩ := closestMultiple_spec _ _ _ hc
      have hP : 0 < 10 ^ (q + 1) * 2 ^ 55 :=
        Nat.mul_pos (Nat.pow_pos (by decide)) (Nat.pow_pos (by decide))
      simp only [Nat.mul_div_cancel _ hP]
      exact multiple_eq_of_contains N q k hN hin

theorem shortestDecimal_exact (N : Nat) (hN : PrintsExactly N) :
    (shortestDecimal N 0).1 * 10 ^ (shortestDecimal N 0).2 = N := by
  unfold shortestDecimal
  by_cases h0 : N = 0
  · simp [h0]
  · simp only [h0, if_false]
    exact shortestSearch_exact N hN _

theorem toLocaleString_integer (negative : Bool) (n : Nat) (hn : PrintsExactly n) :
    toLocaleStringPtBR 0 (.finite negative n 0)
      = (if negative then ['-'] else []) ++ groupThousands (natDigits n) := by
  have hs := shortestDecimal_exact n hn
  have e1 : (2 * (shortestDecimal n 0).1 * 10 ^ ((shortestDecimal n 0).2 + 3) + 10 ^ 0)
      / (2 * 10 ^ 0) = 1000 * n := by
    have : 2 * (shortestDecimal n 0).1 * 10 ^ ((shortestDecimal n 0).2 + 3) = 2000 * n := by
      have hr : 2 * (shortestDecimal n 0).1 * 10 ^ ((shortestDecimal n 0).2 + 3)
          = 2000 * ((shortestDecimal n 0).1 * 10 ^ (shortestDecimal n 0).2) := by
        rw [Nat.pow_add]
        ring
      rw [hr, hs]
    rw [this]
    simp only [pow_zero]
    omega
  have e2 : 1000 * n % 1000 = 0 := by omega
  have e3 : 1000 * n / 1000 = n := by omega
  simp only [toLocaleStringPtBR, e1, e2, e3]
  have : trimFraction 0 (List.replicate (3 - (natDigits 0).length) '0' ++ natDigits 0) = [] := by
    decide
  rw [this]
  simp

/-! ## Grouping and the digits of the specification -/

theorem groupRev_erase (l : List Char) (h : '.' ∉ l) :
    (groupRev l).filter (fun c => c != '.') = l := by
  induction l using groupRev.induct with
  | case1 a b c d rest ih =>
    have ha : a ≠ '.' := fun e => h (by simp [e])
    have hb : b ≠ '.' := fun e => h (by simp [e])
    have hc : c ≠ '.' := fun e => h (by simp [e])
    have hrest : '.' ∉ d :: rest := fun hm => h (by simp [List.mem_cons] at hm ⊢; tauto)
    simp [groupRev, ha, hb, hc, ih hrest]
  | case2 ds hds =>
    have : groupRev ds = ds := by
      unfold groupRev
      split
      · rename_i a b c d rest
        exact absurd rfl (hds a b c d rest)
      · rfl
    rw [this, List.filter_eq_self]
    intro c hc
    have : c ≠ '.' := fun e => h (e ▸ hc)
    simpa using this

/-- Removing the separators from the grouped digits gives the digits back. -/
theorem groupThousands_erase (ds : List Char) (h : '.' ∉ ds) :
    (groupThousands ds).filter (fun c => c != '.') = ds := by
  unfold groupThousands
  rw [List.filter_reverse, groupRev_erase _ (by simpa using h), List.reverse_reverse]

theorem digits_reverse_map (n : Nat) (h : 0 < n) :
    (Nat.digits 10 n).reverse.map digitChar = natDigits n := by
  induction n using Nat.strong_induction_on with
  | _ n ih =>
    by_cases h10 : n < 10
    · rw [Nat.digits_of_lt 10 n (by omega) h10, natDigits_small n h10]
      rfl
    · rw [Nat.digits_def' (by decide) h, natDigits_step n (by omega)]
      simp only [List.reverse_cons, List.map_append, List.map_cons, List.map_nil]
      rw [ih (n / 10) (by omega) (by omega)]

/-- The digits Mathlib computes are the digits `toFixed` and `toLocaleString` write. -/
theorem decimalString_eq (n : Nat) : decimalString n = natDigits n := by
  unfold decimalString
  by_cases h : n = 0
  · subst h
    rfl
  · simp only [h, if_false]
    exact digits_reverse_map n (by omega)

theorem groupRev_snoc (l : List Char) (x : Char) :
    groupRev (l ++ [x])
      = if l.length % 3 = 0 ∧ l ≠ [] then groupRev l ++ ['.', x] else groupRev l ++ [x] := by
  induction l using groupRev.induct with
  | case1 a b c d rest ih =>
    have hlen : (a :: b :: c :: d :: rest).length % 3 = (d :: rest).length % 3 := by
      simp only [List.length_cons]
      omega
    have hne : (a :: b :: c :: d :: rest) ≠ [] := by simp
    have hne2 : (d :: rest) ≠ [] := by simp
    have hstep : groupRev (a :: b :: c :: d :: rest ++ [x])
        = a :: b :: c :: '.' :: groupRev (d :: rest ++ [x]) := by
      simp [groupRev]
    rw [hstep, ih, hlen]
    simp only [hne, hne2, ne_eq, not_false_eq_true, and_true]
    split <;> simp [groupRev]
  | case2 ds hds =>
    match ds, hds with
    | [], _ => simp [groupRev]
    | [a], _ => simp [groupRev]
    | [a, b], _ => simp [groupRev]
    | [a, b, c], _ => simp [groupRev]
    | a :: b :: c :: d :: rest, hds => exact absurd rfl (hds a b c d rest)

/-- Writing the separators from the left, by the number of digits that follow, gives the groups
`toLocaleString` forms from the right. -/
theorem insertDots_eq (ds : List Char) : insertDots ds = groupThousands ds := by
  induction ds with
  | nil => rfl
  | cons c rest ih =>
    unfold groupThousands at ih ⊢
    rw [List.reverse_cons, groupRev_snoc, insertDots, ih]
    have hlen : rest.reverse.length = rest.length := List.length_reverse rest
    have hne : rest.reverse ≠ [] ↔ rest ≠ [] := by simp
    rw [hlen]
    by_cases hcond : rest.length % 3 = 0 ∧ rest ≠ []
    · have hcond2 : rest.length % 3 = 0 ∧ rest.reverse ≠ [] := ⟨hcond.1, hne.2 hcond.2⟩
      rw [if_pos hcond, if_pos hcond2]
      simp
    · have hcond2 : ¬ (rest.length % 3 = 0 ∧ rest.reverse ≠ []) :=
        fun h => hcond ⟨h.1, hne.1 h.2⟩
      rw [if_neg hcond, if_neg hcond2]
      simp

theorem specPriceParts_eq (negative : Bool) (cents : Nat) :
    specPriceParts negative cents
      = ⟨String.mk ((if negative then ['-'] else []) ++ groupThousands (natDigits (cents / 100))),
          some (String.mk [digitChar (cents % 100 / 10), digitChar (cents % 10)])⟩ := by
  unfold specPriceParts
  rw [decimalString_eq, insertDots_eq]

/-! ## `formatPrice` on numbers -/

theorem roundHundredths_nearest (num scale : Nat) :
    2 ^ (scale + 1) * roundHundredths num scale ≤ 200 * num + 2 ^ scale ∧
      200 * num + 2 ^ scale < 2 ^ (scale + 1) * (roundHundredths num scale + 1) := by
  have hpos : 0 < 2 ^ (scale + 1) := Nat.pow_pos (by decide)
  unfold roundHundredths
  constructor
  · exact Nat.mul_div_le _ _
  · exact Nat.lt_mul_div_succ _ hpos

/-- The whole part of a double of magnitude below `2^54`, rounded to hundredths, is a number the
engines print digit by digit: below `2^53` it is at most `2^53`, from `2^53` on the double is an
even whole number and the rounding leaves it unchanged. -/
theorem whole_printsExactly (num scale : Nat)
    (hdouble : ∃ m k : Nat, m < 2 ^ 53 ∧ num = m * 2 ^ k)
    (hlt : num < 2 ^ 54 * 2 ^ scale) :
    PrintsExactly (roundHundredths num scale / 100) := by
  have hT : 0 < 2 ^ scale := Nat.pow_pos (by decide)
  have hpow : 2 ^ (scale + 1) = 2 * 2 ^ scale := by rw [Nat.pow_succ, Nat.mul_comm]
  by_cases hsmall : num < 2 ^ 53 * 2 ^ scale
  · have hnear := (roundHundredths_nearest num scale).1
    rw [hpow] at hnear
    have hW : roundHundredths num scale / 100 ≤ 2 ^ 53 := by
      by_contra hcon
      have h1 : 2 ^ 53 + 1 ≤ roundHundredths num scale / 100 := by omega
      have h2 : (2 ^ 53 + 1) * 100 ≤ roundHundredths num scale := by
        have := Nat.div_mul_le_self (roundHundredths num scale) 100
        have := Nat.mul_le_mul_right 100 h1
        omega
      have h3 := Nat.mul_le_mul_left (2 * 2 ^ scale) h2
      generalize 2 ^ scale = T at *
      generalize roundHundredths num scale = c at *
      norm_num at *
      omega
    rcases Nat.lt_or_eq_of_le hW with h | h
    · exact Or.inl h
    · exact Or.inr (by rw [h]; decide)
  · obtain ⟨m, k, hm, hnum⟩ := hdouble
    have hk : scale < k := by
      by_contra hcon
      have hle : 2 ^ k ≤ 2 ^ scale := Nat.pow_le_pow_right (by decide) (by omega)
      have h1 : m * 2 ^ k ≤ m * 2 ^ scale := Nat.mul_le_mul_left m hle
      have h2 : m * 2 ^ scale < 2 ^ 53 * 2 ^ scale := Nat.mul_lt_mul_of_pos_right hm hT
      omega
    obtain ⟨j, rfl⟩ : ∃ j, k = scale + 1 + j := ⟨k - scale - 1, by omega⟩
    have hnum2 : num = (m * 2 ^ j) * (2 * 2 ^ scale) := by
      rw [hnum, Nat.pow_add, hpow]
      ring
    have hround : roundHundredths num scale = 200 * (m * 2 ^ j) := by
      unfold roundHundredths
      rw [hpow, hnum2]
      have e : 200 * (m * 2 ^ j * (2 * 2 ^ scale)) + 2 ^ scale
          = 2 ^ scale + (200 * (m * 2 ^ j)) * (2 * 2 ^ scale) := by ring
      rw [e, Nat.add_mul_div_right _ _ (by omega : 0 < 2 * 2 ^ scale)]
      rw [Nat.div_eq_of_lt (by omega : 2 ^ scale < 2 * 2 ^ scale), Nat.zero_add]
    have hwhole : roundHundredths num scale / 100 = 2 * (m * 2 ^ j) := by
      rw [hround]
      omega
    rw [hwhole]
    refine Or.inr ⟨?_, by omega⟩
    rw [hnum2] at hlt
    have hlt2 : (2 * (m * 2 ^ j)) * 2 ^ scale < 2 ^ 54 * 2 ^ scale := by
      calc (2 * (m * 2 ^ j)) * 2 ^ scale = m * 2 ^ j * (2 * 2 ^ scale) := by ring
        _ < 2 ^ 54 * 2 ^ scale := hlt
    exact Nat.lt_of_mul_lt_mul_right hlt2

/-- Below `10^21`, when the whole part of the rounded amount is a number the engines print digit
by digit, the pipeline `toFixed(2)`, `split`, `parseInt`, `toLocaleString` yields the grouped
whole part and the two fractional digits of the rounded amount. -/
theorem formatPrice_finite (negative : Bool) (num scale : Nat) (hlt : num < 10 ^ 21 * 2 ^ scale)
    (hwhole : PrintsExactly (roundHundredths num scale / 100)) :
    formatPrice (.number (.finite negative num scale))
      = .ok (specPriceParts (negative && num != 0) (roundHundredths num scale)) := by
  have hcond : (!(JSValue.number (.finite negative num scale)).toBoolean
      && (JSValue.number (.finite negative num scale)).strictNeZero) = false := by
    simp only [JSValue.toBoolean, JSNumber.toBoolean, JSValue.strictNeZero, JSNumber.isZero]
    cases h : (num == 0) <;> simp [bne, h]
  have hlarge : ¬ (10 ^ 21 * 2 ^ scale ≤ num) := by omega
  rw [specPriceParts_eq]
  revert hwhole
  set c := roundHundredths num scale with hc
  intro hwhole
  set sgn : List Char := if (negative && num != 0) = true then ['-'] else [] with hsgn
  have hfix : toFixed2 (.finite negative num scale)
      = (sgn ++ natDigits (c / 100)) ++ '.' :: [digitChar (c % 100 / 10), digitChar (c % 10)] := by
    simp only [toFixed2, hlarge, if_false]
    rw [← hc, padded_digits c]
    simp [hsgn]
  have hdot_digits : ∀ n, '.' ∉ natDigits n := fun n hmem =>
    not_digit_of_eq '.' (by decide) (natDigits_allDigits n _ hmem) rfl
  have hdot_a : '.' ∉ sgn ++ natDigits (c / 100) := by
    intro hmem
    rcases List.mem_append.mp hmem with h | h
    · rw [hsgn] at h
      split at h
      · simp at h
      · simp at h
    · exact hdot_digits _ h
  have hdot_b : '.' ∉ [digitChar (c % 100 / 10), digitChar (c % 10)] := by
    intro hmem
    simp only [List.mem_cons, List.mem_singleton, List.not_mem_nil, or_false] at hmem
    rcases hmem with h | h
    · exact not_digit_of_eq '.' (by decide) (isDigit_digitChar _) h.symm
    · exact not_digit_of_eq '.' (by decide) (isDigit_digitChar _) h.symm
  unfold formatPrice
  rw [hcond]
  simp only [Bool.false_eq_true, if_false]
  rw [hfix, split_two _ _ hdot_a hdot_b]
  simp only [List.headD_cons, List.getElem?_cons_succ, List.getElem?_cons_zero, Option.map_some']
  rw [hsgn, parseInt_signed_digits, toLocaleString_integer _ _ hwhole]

/-- C2: every absent or falsy input (undefined, null, false, NaN, either zero, the empty string)
makes `formatPrice` return exactly the pair integer "0", decimals "00". -/
theorem formatPrice_falsy (price : JSValue) (hfalsy : price.toBoolean = false) :
    formatPrice price = .ok ⟨"0", some "00"⟩ := by
  match price, hfalsy with
  | .undefined, _ => rfl
  | .null, _ => rfl
  | .boolean false, _ => rfl
  | .number .nan, _ => rfl
  | .number (.finite negative num scale), h =>
    have hz : num = 0 := by simpa [JSValue.toBoolean, JSNumber.toBoolean] using h
    subst hz
    have hr : roundHundredths 0 scale = 0 := by
      unfold roundHundredths
      rw [Nat.mul_zero, Nat.zero_add]
      exact Nat.div_eq_of_lt (Nat.pow_lt_pow_right (by decide) (Nat.lt_succ_self _))
    rw [formatPrice_finite negative 0 scale (Nat.mul_pos (by decide) (Nat.pow_pos (by decide)))
      (by rw [hr]; exact Or.inl (by decide))]
    rw [hr, specPriceParts_eq]
    cases negative <;> rfl
  | .string s, h =>
    have hs : s = "" := by simpa [JSValue.toBoolean] using h
    subst hs
    rfl

/-- An absent price (`undefined`) is formatted as "0" and "00". -/
theorem formatPrice_falsy_witness :
    JSValue.undefined.toBoolean = false ∧ formatPrice .undefined = .ok ⟨"0", some "00"⟩ :=
  ⟨rfl, formatPrice_falsy .undefined rfl⟩

/-- C1 (as amended): for every finite non-zero double of magnitude below `2^54`, `formatPrice`
rounds the amount to the nearest hundredth `cents / 100` (a tie goes to the larger magnitude) and
returns the whole part of the rounded amount in decimal, `.` between each group of three digits
counted from the right, together with exactly its two fractional digits. -/
theorem formatPrice_rounds_and_groups (negative : Bool) (num scale : Nat)
    (hnz : num ≠ 0) (hdouble : (JSNumber.finite negative num scale).IsDouble)
    (hlt : num < 2 ^ 54 * 2 ^ scale) :
    ∃ cents : Nat,
      (2 ^ (scale + 1) * cents ≤ 200 * num + 2 ^ scale ∧
        200 * num + 2 ^ scale < 2 ^ (scale + 1) * (cents + 1)) ∧
      formatPrice (.number (.finite negative num scale)) = .ok (specPriceParts negative cents) := by
  refine ⟨roundHundredths num scale, roundHundredths_nearest num scale, ?_⟩
  have hbig : num < 10 ^ 21 * 2 ^ scale :=
    Nat.lt_of_lt_of_le hlt (Nat.mul_le_mul_right _ (by decide))
  rw [formatPrice_finite negative num scale hbig (whole_printsExactly num scale hdouble hlt)]
  have : (num != 0) = true := by simpa [bne] using hnz
  rw [this, Bool.and_true]

/-- The amount 1234.5 (`2469 / 2`) is formatted as "1.234" and "50". -/
theorem formatPrice_rounds_and_groups_witness :
    formatPrice (.number (.finite false 2469 1)) = .ok ⟨"1.234", some "50"⟩ := by
  obtain ⟨cents, ⟨hlo, hhi⟩, h⟩ :=
    formatPrice_rounds_and_groups false 2469 1 (by decide) ⟨2469, 0, by decide, by decide⟩
      (by decide)
  have hc : cents = 123450 := by omega
  subst hc
  rw [h, specPriceParts_eq]
  decide

/-- C1 (as stated) fails at two present, truthy amounts.  At `10^21`, `toFixed(2)` answers
"1e+21", so the result has integer "1" and no decimals.  At `2^56 + 16 = 72057594037927952`, a
double, `toLocaleString` writes the shortest digits that read back as the number,
"72.057.594.037.927.950", not the digits of the whole part. -/
theorem formatPrice_large_counterexample :
    ((JSValue.number (.finite false (10 ^ 21) 0)).toBoolean = true ∧
      formatPrice (.number (.finite false (10 ^ 21) 0)) = .ok ⟨"1", none⟩ ∧
      formatPrice (.number (.finite false (10 ^ 21) 0)) ≠ .ok (specPriceParts false (10 ^ 23))) ∧
    ((JSNumber.finite false (2 ^ 56 + 16) 0).IsDouble ∧
      formatPrice (.number (.finite false (2 ^ 56 + 16) 0))
        = .ok ⟨"72.057.594.037.927.950", some "00"⟩ ∧
      specPriceParts false ((2 ^ 56 + 16) * 100) = ⟨"72.057.594.037.927.952", some "00"⟩) := by
  refine ⟨⟨by decide, by decide, ?_⟩, ⟨2 ^ 52 + 1, 4, by decide, by decide⟩, by decide, ?_⟩
  · rw [specPriceParts_eq]
    decide
  · rw [specPriceParts_eq]
    decide

/-! ## `slugify`: the replacements against the words of the text -/

theorem alnum_ne_hyphen {c : Char} (h : isSlugAlnum c = true) : c ≠ '-' := by
  intro e
  subst e
  exact absurd h (by decide)

theorem trimStart_cons {c : Char} (h : c ≠ '-') (l : List Char) : trimStart (c :: l) = c :: l := by
  unfold trimStart
  split
  · rename_i heq
    simp only [List.cons.injEq] at heq
    exact absurd heq.1 h
  · rfl

theorem trimStart_replaceRuns (s : List Char) :
    trimStart (replaceRuns false s) = replaceRuns true s := by
  cases s with
  | nil => rfl
  | cons c cs =>
    by_cases h : isSlugAlnum c = true
    · simp only [replaceRuns, h, if_true]
      exact trimStart_cons (alnum_ne_hyphen h) _
    · simp only [replaceRuns, h, if_false, if_true]
      rfl

theorem trimEnd_cons_cons (c x : Char) (l : List Char) :
    trimEnd (c :: x :: l) = c :: trimEnd (x :: l) := by
  unfold trimEnd
  rw [List.getLast?_cons_cons]
  split <;> simp [List.dropLast]

theorem trimEnd_single {c : Char} (h : c ≠ '-') : trimEnd [c] = [c] := by
  simp [trimEnd, h]

theorem replaceRuns_true_head (s : List Char) :
    ∀ x l, replaceRuns true s = x :: l → isSlugAlnum x = true := by
  induction s with
  | nil => intro x l h; simp [replaceRuns] at h
  | cons c cs ih =>
    intro x l h
    by_cases hc : isSlugAlnum c = true
    · simp only [replaceRuns, hc, if_true, List.cons.injEq] at h
      exact h.1 ▸ hc
    · simp only [replaceRuns, hc, if_false, if_true] at h
      exact ih x l h

theorem trimEnd_ne_nil {x : Char} (hx : x ≠ '-') (l : List Char) : trimEnd (x :: l) ≠ [] := by
  cases l with
  | nil => rw [trimEnd_single hx]; simp
  | cons y l => rw [trimEnd_cons_cons]; simp

theorem intercalate_cons_cons (sep a b : List Char) (l : List (List Char)) :
    List.intercalate sep (a :: b :: l) = a ++ sep ++ List.intercalate sep (b :: l) := by
  simp [List.intercalate, List.intersperse]

theorem intercalate_single (sep a : List Char) : List.intercalate sep [a] = a := by
  simp [List.intercalate, List.intersperse]

theorem intercalate_push (sep : List Char) (c : Char) (w : List Char) (l : List (List Char)) :
    List.intercalate sep ((c :: w) :: l) = c :: List.intercalate sep (w :: l) := by
  cases l with
  | nil => simp [intercalate_single]
  | cons b l => simp [intercalate_cons_cons]

theorem intercalate_eq_nil (sep : List Char) (l : List (List Char))
    (hne : ∀ w ∈ l, w ≠ []) (h : List.intercalate sep l = []) : l = [] := by
  cases l with
  | nil => rfl
  | cons a l =>
    exfalso
    have ha : a ≠ [] := hne a (List.mem_cons_self _ _)
    cases a with
    | nil => exact ha rfl
    | cons c w => rw [intercalate_push] at h; exact List.cons_ne_nil _ _ h

theorem alnumWords_nonempty (s : List Char) : ∀ w ∈ alnumWords s, w ≠ [] := by
  intro w hw
  simp only [alnumWords, List.mem_filter, Bool.not_eq_true', List.isEmpty_eq_false] at hw
  exact hw.2

theorem alnumWords_nil : alnumWords [] = [] := by
  simp [alnumWords]

theorem alnumWords_cons_sep {d : Char} (hd : ¬ isSlugAlnum d = true) (ds : List Char) :
    alnumWords (d :: ds) = alnumWords ds := by
  simp [alnumWords, hd]

/-- The words of a text that starts with an `[a-z0-9]` code point, in terms of the pieces of the
rest. -/
theorem alnumWords_cons_alnum {d : Char} (hd : isSlugAlnum d = true) (ds : List Char) :
    ∃ p ps, List.splitOnP (fun c => !isSlugAlnum c) ds = p :: ps ∧
      alnumWords (d :: ds) = (d :: p) :: ps.filter (fun w => !w.isEmpty) := by
  cases hsplit : List.splitOnP (fun c => !isSlugAlnum c) ds with
  | nil => exact absurd hsplit (List.splitOnP_ne_nil _ _)
  | cons p ps =>
    refine ⟨p, ps, rfl, ?_⟩
    simp [alnumWords, hd, hsplit, List.modifyHead, List.filter]

/-- Joint statement for the induction: after a run (`true`) the output is the words joined by
hyphens up to the trailing hyphen, and so is the output that follows an `[a-z0-9]` code point. -/
theorem trimEnd_replaceRuns_aux (s : List Char) :
    trimEnd (replaceRuns true s) = specSlug s ∧
      ∀ c, isSlugAlnum c = true → trimEnd (c :: replaceRuns false s) = specSlug (c :: s) := by
  induction s with
  | nil =>
    refine ⟨by simp [replaceRuns, trimEnd, specSlug, alnumWords_nil, List.intercalate], ?_⟩
    intro c hc
    obtain ⟨p, ps, hsplit, hw⟩ := alnumWords_cons_alnum hc []
    simp only [List.splitOnP_nil, List.cons.injEq] at hsplit
    obtain ⟨rfl, rfl⟩ := hsplit
    simp only [replaceRuns, specSlug, hw, List.filter_nil, intercalate_single]
    exact trimEnd_single (alnum_ne_hyphen hc)
  | cons d ds ih =>
    obtain ⟨ih1, ih2⟩ := ih
    by_cases hd : isSlugAlnum d = true
    · have h1 : trimEnd (replaceRuns true (d :: ds)) = specSlug (d :: ds) := by
        simp only [replaceRuns, hd, if_true]
        exact ih2 d hd
      refine ⟨h1, ?_⟩
      intro c hc
      simp only [replaceRuns, hd, if_true]
      rw [trimEnd_cons_cons, ih2 d hd]
      obtain ⟨p, ps, hsplit, hw⟩ := alnumWords_cons_alnum hd ds
      obtain ⟨p2, ps2, hsplit2, hw2⟩ := alnumWords_cons_alnum hc (d :: ds)
      rw [List.splitOnP_cons] at hsplit2
      simp only [hd, Bool.not_true, Bool.false_eq_true, if_false, hsplit, List.modifyHead,
        List.cons.injEq] at hsplit2
      obtain ⟨rfl, rfl⟩ := hsplit2
      simp only [specSlug, hw, hw2, intercalate_push]
    · have hd' : isSlugAlnum d = false := by simpa using hd
      have h1 : trimEnd (replaceRuns true (d :: ds)) = specSlug (d :: ds) := by
        simp only [replaceRuns, hd', Bool.false_eq_true, if_false, if_true]
        rw [ih1, specSlug, specSlug, alnumWords_cons_sep hd]
      refine ⟨h1, ?_⟩
      intro c hc
      obtain ⟨p2, ps2, hsplit2, hw2⟩ := alnumWords_cons_alnum hc (d :: ds)
      rw [List.splitOnP_cons] at hsplit2
      simp only [hd', Bool.not_false, if_true, List.cons.injEq] at hsplit2
      obtain ⟨rfl, rfl⟩ := hsplit2
      have hws : List.filter (fun w => !w.isEmpty) (List.splitOnP (fun c => !isSlugAlnum c) ds)
          = alnumWords ds := rfl
      simp only [replaceRuns, hd', if_false, Bool.false_eq_true, specSlug, hw2, hws]
      cases hrun : replaceRuns true ds with
      | nil =>
        rw [hrun] at ih1
        have hnil : alnumWords ds = [] :=
          intercalate_eq_nil _ _ (alnumWords_nonempty ds) (by rw [← specSlug, ← ih1]; rfl)
        rw [hnil, intercalate_single, trimEnd_cons_cons]
        rfl
      | cons x l =>
        rw [hrun] at ih1
        have hx : isSlugAlnum x = true := replaceRuns_true_head ds x l hrun
        have hne : alnumWords ds ≠ [] := by
          intro hnil
          rw [specSlug, hnil] at ih1
          exact trimEnd_ne_nil (alnum_ne_hyphen hx) l ih1
        cases hwords : alnumWords ds with
        | nil => exact absurd hwords hne
        | cons w ws =>
          rw [trimEnd_cons_cons, trimEnd_cons_cons, ih1, specSlug, hwords, intercalate_cons_cons]
          simp

/-- The two replacements of `slugify` produce the `[a-z0-9]` words joined by single hyphens. -/
theorem trimHyphens_replaceRuns (s : List Char) :
    trimHyphens (replaceRuns false s) = specSlug s := by
  rw [trimHyphens, trimStart_replaceRuns]
  exact (trimEnd_replaceRuns_aux s).1

theorem splitOnP_pieces (s : List Char) :
    ∀ w ∈ List.splitOnP (fun c => !isSlugAlnum c) s, ∀ c ∈ w, isSlugAlnum c = true := by
  induction s with
  | nil => intro w hw c hc; simp at hw; subst hw; simp at hc
  | cons d ds ih =>
    intro w hw c hc
    rw [List.splitOnP_cons] at hw
    by_cases hd : isSlugAlnum d = true
    · simp only [hd, Bool.not_true, Bool.false_eq_true, if_false] at hw
      cases hsplit : List.splitOnP (fun c => !isSlugAlnum c) ds with
      | nil => exact absurd hsplit (List.splitOnP_ne_nil _ _)
      | cons p ps =>
        rw [hsplit] at hw ih
        simp only [List.modifyHead, List.mem_cons] at hw
        rcases hw with rfl | hw
        · rcases List.mem_cons.mp hc with rfl | hc
          · exact hd
          · exact ih p (List.mem_cons_self _ _) c hc
        · exact ih w (List.mem_cons_of_mem _ hw) c hc
    · have hd' : isSlugAlnum d = false := by simpa using hd
      simp only [hd', Bool.not_false, if_true, List.mem_cons] at hw
      rcases hw with rfl | hw
      · simp at hc
      · exact ih w hw c hc

theorem alnumWords_alnum (s : List Char) : ∀ w ∈ alnumWords s, ∀ c ∈ w, isSlugAlnum c = true := by
  intro w hw
  exact splitOnP_pieces s w (List.mem_of_mem_filter hw)

theorem goodWords_alnumWords (s : List Char) : GoodWords (alnumWords s) :=
  ⟨alnumWords_nonempty s, alnumWords_alnum s⟩

theorem goodWords_tail {w : List Char} {l : List (List Char)} (h : GoodWords (w :: l)) :
    GoodWords l :=
  ⟨fun v hv => h.1 v (List.mem_cons_of_mem _ hv), fun v hv => h.2 v (List.mem_cons_of_mem _ hv)⟩

theorem join_head (l : List (List Char)) (h : GoodWords l) :
    ∀ x, (List.intercalate ['-'] l).head? = some x → isSlugAlnum x = true := by
  intro x hx
  cases l with
  | nil => simp [List.intercalate] at hx
  | cons w l =>
    have hw : w ≠ [] := h.1 w (List.mem_cons_self _ _)
    cases w with
    | nil => exact absurd rfl hw
    | cons c w =>
      rw [intercalate_push] at hx
      simp only [List.head?_cons, Option.some.injEq] at hx
      subst hx
      exact h.2 _ (List.mem_cons_self _ _) _ (List.mem_cons_self _ _)

theorem join_last (l : List (List Char)) (h : GoodWords l) :
    ∀ x, (List.intercalate ['-'] l).getLast? = some x → isSlugAlnum x = true := by
  induction l with
  | nil => intro x hx; simp [List.intercalate] at hx
  | cons w l ih =>
    intro x hx
    cases l with
    | nil =>
      rw [intercalate_single] at hx
      exact h.2 w (List.mem_cons_self _ _) x (List.mem_of_mem_getLast? hx)
    | cons v l =>
      rw [intercalate_cons_cons] at hx
      have hv : v ≠ [] := h.1 v (by simp)
      have hne : List.intercalate ['-'] (v :: l) ≠ [] := by
        intro hnil
        have := intercalate_eq_nil _ _ (goodWords_tail h).1 hnil
        exact List.cons_ne_nil _ _ this
      rw [List.getLast?_append_of_ne_nil _ hne] at hx
      exact ih (goodWords_tail h) x hx

theorem join_chars (l : List (List Char)) (h : GoodWords l) :
    ∀ c ∈ List.intercalate ['-'] l, isSlugChar c = true := by
  induction l with
  | nil => intro c hc; simp [List.intercalate] at hc
  | cons w l ih =>
    intro c hc
    have hwc : ∀ c ∈ w, isSlugChar c = true := fun c hc => by
      simp [isSlugChar, h.2 w (List.mem_cons_self _ _) c hc]
    cases l with
    | nil => rw [intercalate_single] at hc; exact hwc c hc
    | cons v l =>
      rw [intercalate_cons_cons] at hc
      simp only [List.append_assoc, List.mem_append, List.mem_singleton] at hc
      rcases hc with hc | hc | hc
      · exact hwc c hc
      · subst hc; decide
      · exact ih (goodWords_tail h) c hc

theorem splitOnP_congr (p q : Char → Bool) (s : List Char) (h : ∀ c ∈ s, p c = q c) :
    List.splitOnP p s = List.splitOnP q s := by
  induction s with
  | nil => rfl
  | cons d ds ih =>
    rw [List.splitOnP_cons, List.splitOnP_cons, h d (List.mem_cons_self _ _),
      ih (fun c hc => h c (List.mem_cons_of_mem _ hc))]

/-- Splitting the joined words at the hyphens gives the words back. -/
theorem alnumWords_join (l : List (List Char)) (h : GoodWords l) :
    alnumWords (List.intercalate ['-'] l) = l := by
  have hfilter : l.filter (fun w => !w.isEmpty) = l := by
    rw [List.filter_eq_self]
    intro w hw
    simpa using h.1 w hw
  by_cases hl : l = []
  · subst hl
    simp [alnumWords, List.intercalate]
  · have hagree : ∀ c ∈ List.intercalate ['-'] l, (!isSlugAlnum c) = (c == '-') := by
      intro c hc
      have hs := join_chars l h c hc
      by_cases ha : isSlugAlnum c = true
      · have hne : c ≠ '-' := alnum_ne_hyphen ha
        simp [ha, hne]
      · have ha' : isSlugAlnum c = false := by simpa using ha
        simp only [isSlugChar, ha', Bool.false_or] at hs
        simp [ha', hs]
    have hno : ∀ w ∈ l, '-' ∉ w := fun w hw hmem => alnum_ne_hyphen (h.2 w hw _ hmem) rfl
    have hsplit := List.splitOn_intercalate l '-' hno hl
    unfold alnumWords
    rw [splitOnP_congr _ (fun c => c == '-') _ hagree]
    rw [List.splitOn] at hsplit
    rw [hsplit, hfilter]

theorem specSlug_specSlug (s : List Char) : specSlug (specSlug s) = specSlug s := by
  unfold specSlug
  rw [alnumWords_join _ (goodWords_alnumWords s)]

theorem specSlug_chars (s : List Char) : ∀ c ∈ specSlug s, isSlugChar c = true :=
  join_chars _ (goodWords_alnumWords s)

theorem slugChar_not_mark {c : Char} (h : isSlugChar c = true) : isCombiningMark c = false := by
  by_cases hm : isCombiningMark c = true
  · exfalso
    simp only [isCombiningMark, Bool.and_eq_true, decide_eq_true_eq] at hm
    simp only [isSlugChar, isSlugAlnum, Bool.or_eq_true, Bool.and_eq_true, decide_eq_true_eq,
      beq_iff_eq] at h
    rcases h with h | h
    · omega
    · subst h
      revert hm
      decide
  · simpa using hm

theorem slugBase_of_slugText (U : UnicodeOps) (hU : U.FixesSlugText) (s : List Char)
    (hs : ∀ c ∈ s, isSlugChar c = true) : slugBase U (String.mk s) = s := by
  obtain ⟨hlow, hnfd⟩ := hU s hs
  unfold slugBase
  simp only [hlow, hnfd]
  rw [List.filter_eq_self]
  intro c hc
  simp [slugChar_not_mark (hs c hc)]

theorem slugify_eq_specSlug (U : UnicodeOps) (text : String) :
    slugify U text = String.mk (specSlug (slugBase U text)) := by
  rw [slugify, trimHyphens_replaceRuns]

theorem latin1_fixesSlugText : latin1.FixesSlugText := by
  intro s hs
  have hchar : ∀ c, isSlugChar c = true → latin1LowerChar c = c ∧ latin1DecomposeChar c = [c] := by
    intro c hc
    have hlt : c.toNat < 0xC0 ∧ ¬ (0x41 ≤ c.toNat ∧ c.toNat ≤ 0x5A) := by
      simp only [isSlugChar, isSlugAlnum, Bool.or_eq_true, Bool.and_eq_true, decide_eq_true_eq,
        beq_iff_eq] at hc
      rcases hc with hc | hc
      · omega
      · subst hc
        decide
    constructor
    · unfold latin1LowerChar
      have : ((decide (0x41 ≤ c.toNat) && decide (c.toNat ≤ 0x5A)) ||
          (decide (0xC0 ≤ c.toNat) && decide (c.toNat ≤ 0xDE) && (c.toNat != 0xD7))) = false := by
        simp only [Bool.or_eq_false_iff, Bool.and_eq_false_iff, decide_eq_false_iff_not]
        omega
      simp only [this, Bool.false_eq_true, if_false]
    · unfold latin1DecomposeChar
      simp [hlt.1]
  induction s with
  | nil => exact ⟨rfl, rfl⟩
  | cons c cs ih =>
    obtain ⟨h1, h2⟩ := ih (fun c hc => hs c (List.mem_cons_of_mem _ hc))
    obtain ⟨hc1, hc2⟩ := hchar c (hs c (List.mem_cons_self _ _))
    simp only [latin1] at h1 h2 ⊢
    simp [hc1, hc2, h1, h2]

/-- C3: `slugify` is idempotent.  The Unicode built-ins are any functions that leave text made of
lowercase ASCII letters, digits and hyphens unchanged, as lower-casing and canonical
decomposition do. -/
theorem slugify_idempotent (U : UnicodeOps) (hU : U.FixesSlugText) (x : String) :
    slugify U (slugify U x) = slugify U x := by
  rw [slugify_eq_specSlug U x, slugify_eq_specSlug U (String.mk _),
    slugBase_of_slugText U hU _ (specSlug_chars _), specSlug_specSlug]

/-- Slugifying the slug of "Eletrônicos & Celulares" again gives the same slug,
"eletronicos-celulares". -/
theorem slugify_idempotent_witness :
    slugify latin1 (slugify latin1 "Eletrônicos & Celulares")
        = slugify latin1 "Eletrônicos & Celulares" ∧
      slugify latin1 "Eletrônicos & Celulares" = "eletronicos-celulares" :=
  ⟨slugify_idempotent latin1 latin1_fixesSlugText "Eletrônicos & Celulares", by decide⟩

/-- C4: for every text, `slugify` returns the `[a-z0-9]` runs of the lower-cased, mark-free text
joined by single hyphens (every run of other code points becomes one hyphen, none is left at either
end), so the slug never begins or ends with a hyphen; and the slug of "Eletrônicos & Celulares" is
"eletronicos-celulares". -/
theorem slugify_no_edge_hyphens :
    (∀ (U : UnicodeOps) (text : String),
      slugify U text = String.mk (List.intercalate ['-'] (alnumWords (slugBase U text))) ∧
      (slugify U text).data.head? ≠ some '-' ∧
      (slugify U text).data.getLast? ≠ some '-') ∧
    slugify latin1 "Eletrônicos & Celulares" = "eletronicos-celulares" := by
  refine ⟨fun U text => ?_, by decide⟩
  have h := slugify_eq_specSlug U text
  refine ⟨h, ?_, ?_⟩
  · rw [h]
    intro hx
    exact alnum_ne_hyphen (join_head _ (goodWords_alnumWords _) '-' hx) rfl
  · rw [h]
    intro hx
    exact alnum_ne_hyphen (join_last _ (goodWords_alnumWords _) '-' hx) rfl

/-! ## `getCategoryIcon` -/

/-- `includes` is the substring test. -/
theorem includes_iff (name key : List Char) : includes name key = true ↔ key <:+: name := by
  induction name with
  | nil => simp [includes, List.isEmpty_iff]
  | cons c cs ih =>
    simp only [includes, Bool.or_eq_true, List.isPrefixOf_iff_prefix, ih, List.infix_cons_iff]

/-- The loop returns the icon of the first entry whose key occurs in the name, or nothing when no
key occurs. -/
theorem firstMatchingIcon_spec (name : List Char) (table : List (String × String)) :
    (∃ (i : Nat) (key icon : String), table[i]? = some (key, icon) ∧ key.data <:+: name ∧
        (∀ (j : Nat) (e : String × String), j < i → table[j]? = some e → ¬ e.1.data <:+: name) ∧
        firstMatchingIcon name table = some icon) ∨
      ((∀ e ∈ table, ¬ e.1.data <:+: name) ∧ firstMatchingIcon name table = none) := by
  induction table with
  | nil => exact Or.inr ⟨by simp, rfl⟩
  | cons entry rest ih =>
    obtain ⟨key, icon⟩ := entry
    by_cases hk : includes name key.data = true
    · refine Or.inl ⟨0, key, icon, List.getElem?_cons_zero, (includes_iff _ _).mp hk, ?_, ?_⟩
      · intro j e hj; omega
      · simp [firstMatchingIcon, hk]
    · have hnot : ¬ key.data <:+: name := fun h => hk ((includes_iff _ _).mpr h)
      have hstep : firstMatchingIcon name ((key, icon) :: rest) = firstMatchingIcon name rest := by
        simp [firstMatchingIcon, hk]
      rcases ih with ⟨i, k, ic, hi, hocc, hfirst, hres⟩ | ⟨hnone, hres⟩
      · refine Or.inl ⟨i + 1, k, ic, by rw [List.getElem?_cons_succ]; exact hi, hocc, ?_,
          by rw [hstep, hres]⟩
        intro j e hj hje
        cases j with
        | zero =>
          simp only [List.getElem?_cons_zero, Option.some.injEq] at hje
          subst hje
          exact hnot
        | succ j =>
          simp only [List.getElem?_cons_succ] at hje
          exact hfirst j e (by omega) hje
      · refine Or.inr ⟨?_, by rw [hstep, hres]⟩
        intro e he
        rcases List.mem_cons.mp he with rfl | he
        · exact hnot
        · exact hnone e he

/-- C5: for every category name, `getCategoryIcon` returns the glyph of the first keyword of
`CATEGORY_ICONS`, in insertion order, that occurs as a substring of the lower-cased name (whatever
later keywords also occur), and the default glyph "📦" when no keyword of the table occurs; for
"Celulares e Acessórios" the result is the glyph of "celulares". -/
theorem getCategoryIcon_first_match :
    (∀ (U : UnicodeOps) (categoryName : String),
      (∃ (i : Nat) (key icon : String), CATEGORY_ICONS[i]? = some (key, icon) ∧
          key.data <:+: U.toLowerCase categoryName.data ∧
          (∀ (j : Nat) (e : String × String), j < i → CATEGORY_ICONS[j]? = some e →
            ¬ e.1.data <:+: U.toLowerCase categoryName.data) ∧
          getCategoryIcon U categoryName = icon) ∨
        ((∀ e ∈ CATEGORY_ICONS, ¬ e.1.data <:+: U.toLowerCase categoryName.data) ∧
          getCategoryIcon U categoryName = "📦")) ∧
    CATEGORY_ICONS[2]? = some ("celulares", "📱") ∧
    getCategoryIcon latin1 "Celulares e Acessórios" = "📱" := by
  refine ⟨fun U categoryName => ?_, by decide, by decide⟩
  rcases firstMatchingIcon_spec (U.toLowerCase categoryName.data) CATEGORY_ICONS with
    ⟨i, key, icon, hi, hocc, hfirst, hres⟩ | ⟨hnone, hres⟩
  · exact Or.inl ⟨i, key, icon, hi, hocc, hfirst, by simp [getCategoryIcon, hres]⟩
  · refine Or.inr ⟨hnone, ?_⟩
    simp only [getCategoryIcon, hres]
    decide

/-! ## Product cards -/

theorem formatPrice_returns (v : JSValue) (h : v.isNumberOrFalsy = true) :
    ∃ parts, formatPrice v = .ok parts := by
  unfold formatPrice
  split
  · exact ⟨_, rfl⟩
  · rename_i hcond
    cases v with
    | number x => exact ⟨_, rfl⟩
    | undefined => exact absurd rfl hcond
    | null => exact absurd rfl hcond
    | boolean b =>
      cases b with
      | false => exact absurd rfl hcond
      | true => exact absurd h (by decide)
    | string s =>
      simp only [JSValue.isNumberOrFalsy, Bool.not_eq_true'] at h
      simp [h, JSValue.strictNeZero] at hcond
    | object => exact absurd h (by decide)

theorem renderProductCard_returns (product : Product) (categorySlug : String)
    (hprice : product.currentPrice.isNumberOrFalsy = true) :
    ∃ card, renderProductCard product categorySlug = .ok card := by
  obtain ⟨parts, hparts⟩ := formatPrice_returns _ hprice
  simp only [renderProductCard, hparts]
  exact ⟨_, rfl⟩

/-- C7 (as amended): for a product whose title and addresses are plain text, a current price that
is a number or absent gives a card, and every card that `renderProductCard` produces contains the
strikethrough original-price element exactly when the product has an original price that
JavaScript treats as true (a number other than zero and NaN) and a `discount_percent` greater
than 0, and contains the two `N% OFF` badges, with `N = discount_percent`, exactly when
`discount_percent` is greater than 0. -/
theorem renderProductCard_discount_elements (product : Product) (categorySlug : String)
    (hplain : product.isPlain = true) :
    (product.currentPrice.isNumberOrFalsy = true →
        ∃ card, renderProductCard product categorySlug = .ok card) ∧
      ∀ card, renderProductCard product categorySlug = .ok card →
        (card.priceOriginal.isSome = true ↔
          (∃ o, product.originalPrice = some o ∧ o.toBoolean = true) ∧
            ∃ d, product.discountPercent = some d ∧ d.gtZero = true) ∧
        (∀ N, (card.discountBadge = some N ∧ card.priceDiscount = some N) ↔
          (product.discountPercent = some N ∧ N.gtZero = true)) ∧
        (card.discountBadge.isSome = true ↔ card.priceDiscount.isSome = true) := by
  have hpos : ∀ d : JSNumber, d.gtZero = true → d.toBoolean = true := by
    intro d hd
    cases d with
    | nan => exact absurd hd (by decide)
    | infinity negative => rfl
    | finite negative num scale =>
      simp only [JSNumber.gtZero, Bool.and_eq_true] at hd
      exact hd.2
  constructor
  · exact renderProductCard_returns product categorySlug
  · intro card hcard
    unfold renderProductCard at hcard
    cases hfmt : formatPrice product.currentPrice with
    | error e => rw [hfmt] at hcard; exact absurd hcard (by simp)
    | ok parts =>
      rw [hfmt] at hcard
      simp only [Except.ok.injEq] at hcard
      subst hcard
      cases hd : product.discountPercent with
      | none =>
        cases ho : product.originalPrice <;> simp
      | some d =>
        by_cases hg : d.gtZero = true
        · have ht := hpos d hg
          cases ho : product.originalPrice with
          | none => simp [hg, ht]
          | some o =>
            by_cases hob : o.toBoolean = true
            · simp [hg, ht, hob]
            · simp [hg, ht, hob]
        · have hg' : d.gtZero = false := by simpa using hg
          cases ho : product.originalPrice with
          | none => simp [hg']
          | some o => simp [hg']

/-- A product with `discount_percent` 20 and both prices gets the strikethrough price and both
`20% OFF` badges; a product without discount gets none of them. -/
theorem renderProductCard_discount_elements_witness :
    renderProductCard discountedProduct "audio" = .ok discountedCard ∧
      discountedCard.priceOriginal = some "R$ 100,00" ∧
      discountedCard.discountBadge = some (.ofNat 20) ∧
      discountedCard.priceDiscount = some (.ofNat 20) ∧
      renderProductCard plainProduct "audio" = .ok plainCard ∧
      plainCard.priceOriginal = none ∧ plainCard.discountBadge = none ∧
      plainCard.priceDiscount = none := by
  have hcard : renderProductCard discountedProduct "audio" = .ok discountedCard := by decide
  obtain ⟨ho, hN, _⟩ :=
    (renderProductCard_discount_elements discountedProduct "audio" (by decide)).2 discountedCard
      hcard
  have hsome : discountedCard.priceOriginal.isSome = true :=
    ho.mpr ⟨⟨.ofNat 100, rfl, by decide⟩, ⟨.ofNat 20, rfl, by decide⟩⟩
  have hb := (hN (.ofNat 20)).mpr ⟨rfl, by decide⟩
  exact ⟨hcard, by decide, hb.1, hb.2, by decide, by decide, by decide, by decide⟩

/-- C7 (as stated) fails for a product that has the original price 0 and `discount_percent` 20:
the template tests `originalPrice && hasDiscount`, and 0 is falsy, so the card carries both
`20% OFF` badges and no strikethrough element. -/
theorem renderProductCard_zero_original_counterexample :
    zeroOriginalProduct.originalPrice = some (.ofNat 0) ∧
      zeroOriginalProduct.discountPercent = some (.ofNat 20) ∧
      (JSNumber.ofNat 20).gtZero = true ∧
      zeroOriginalProduct.isPlain = true ∧
      ∃ card, renderProductCard zeroOriginalProduct "audio" = .ok card ∧
        card.priceOriginal = none ∧
        card.discountBadge = some (.ofNat 20) ∧ card.priceDiscount = some (.ofNat 20) := by
  refine ⟨by decide, by decide, by decide, by decide, ?_⟩
  have hcard : ∃ card, renderProductCard zeroOriginalProduct "audio" = .ok card :=
    renderProductCard_returns zeroOriginalProduct "audio" (by decide)
  obtain ⟨card, hcard⟩ := hcard
  refine ⟨card, hcard, ?_⟩
  have hc : renderProductCard zeroOriginalProduct "audio"
      = .ok { href := some "https://example.com/p", title := "Fone", imageSrc := "img.jpg",
              rankingBadge := none, discountBadge := some (.ofNat 20), priceOriginal := none,
              priceContent := .number (.ofNat 80), priceInteger := "80",
              priceDecimals := some "00", priceDiscount := some (.ofNat 20),
              shipping := none } := by decide
  rw [hc] at hcard
  simp only [Except.ok.injEq] at hcard
  subst hcard
  exact ⟨rfl, rfl, rfl⟩

/-! ## Initialization -/

theorem mapExcept_ok {α β : Type} (f : α → Except JSError β) (l : List α)
    (h : ∀ x ∈ l, ∃ y, f x = .ok y) :
    ∃ ys, mapExcept f l = .ok ys ∧ List.Forall₂ (fun x y => f x = .ok y) l ys := by
  induction l with
  | nil => exact ⟨[], rfl, List.Forall₂.nil⟩
  | cons x xs ih =>
    obtain ⟨y, hy⟩ := h x (List.mem_cons_self _ _)
    obtain ⟨ys, hys, hrel⟩ := ih (fun z hz => h z (List.mem_cons_of_mem _ hz))
    exact ⟨y :: ys, by simp [mapExcept, hy, hys], List.Forall₂.cons hy hrel⟩

theorem mapExcept_length {α β : Type} (f : α → Except JSError β) :
    ∀ (l : List α) (ys : List β), mapExcept f l = .ok ys → ys.length = l.length := by
  intro l
  induction l with
  | nil =>
    intro ys h
    simp only [mapExcept, Except.ok.injEq] at h
    subst h
    rfl
  | cons x xs ih =>
    intro ys h
    unfold mapExcept at h
    cases hx : f x with
    | error e => rw [hx] at h; exact absurd h (by simp)
    | ok y =>
      rw [hx] at h
      cases hxs : mapExcept f xs with
      | error e => rw [hxs] at h; exact absurd h (by simp)
      | ok zs =>
        rw [hxs] at h
        simp only [Except.ok.injEq] at h
        subst h
        simp [ih zs hxs]

theorem renderCategorySection_ok (U : UnicodeOps) (c : Category) (ps : List Product)
    (hps : c.products = some ps) (hprices : ∀ p ∈ ps, p.currentPrice.isNumberOrFalsy = true) :
    ∃ s, renderCategorySection U c = .ok s := by
  obtain ⟨cards, hcards, _⟩ := mapExcept_ok
    (fun product => renderProductCard product (slugify U c.name)) ps
    (fun p hp => renderProductCard_returns p _ (hprices p hp))
  simp only [renderCategorySection, hps, hcards]
  exact ⟨_, rfl⟩

theorem renderCategorySection_fields (U : UnicodeOps) (c : Category) (s : CategorySection)
    (h : renderCategorySection U c = .ok s) :
    (s.name, s.id, s.cards.length)
      = (c.name, "section-" ++ slugify U c.name, c.productList.length) := by
  unfold renderCategorySection at h
  cases hps : c.products with
  | none => rw [hps] at h; exact absurd h (by simp)
  | some ps =>
    rw [hps] at h
    cases hcards : mapExcept (fun product => renderProductCard product (slugify U c.name)) ps with
    | error e => simp only [hcards] at h; exact absurd h (by simp)
    | ok cards =>
      simp only [hcards, Except.ok.injEq] at h
      subst h
      simp [Category.productList, hps, mapExcept_length _ _ _ hcards]

theorem navButtons_fields (U : UnicodeOps) (l : List Category) :
    ∀ i, (navButtons U i l).map (fun b => (b.name, b.dataCategory))
      = l.map (fun c => (c.name, slugify U c.name)) := by
  induction l with
  | nil => intro i; rfl
  | cons c cs ih => intro i; simp [navButtons, navButton, ih (i + 1)]

theorem hasProducts_eq (c : Category) : hasProducts c = !c.productList.isEmpty := by
  unfold hasProducts Category.productList
  cases c.products with
  | none => rfl
  | some ps => cases ps <;> simp

theorem filter_hasProducts (categories : List Category) :
    categories.filter hasProducts = nonEmptyCategories categories := by
  unfold nonEmptyCategories
  congr 1
  funext c
  exact hasProducts_eq c

theorem countProducts_ok (l : List Category) (h : ∀ c ∈ l, c.products.isSome = true) :
    ∀ acc, countProducts l acc = .ok (acc + (l.map (fun c => c.productList.length)).sum) := by
  induction l with
  | nil => intro acc; simp [countProducts]
  | cons c cs ih =>
    intro acc
    have hc := h c (List.mem_cons_self _ _)
    cases hps : c.products with
    | none => rw [hps] at hc; exact absurd hc (by decide)
    | some ps =>
      simp only [countProducts, hps, List.map_cons, List.sum_cons, Category.productList,
        Option.getD_some]
      rw [ih (fun d hd => h d (List.mem_cons_of_mem _ hd))]
      simp [Category.productList, Nat.add_assoc]

theorem forall₂_map_eq {α β γ : Type} (f : α → γ) (g : β → γ) (R : α → β → Prop)
    (hR : ∀ a b, R a b → g b = f a) :
    ∀ (l : List α) (m : List β), List.Forall₂ R l m → m.map g = l.map f := by
  intro l m h
  induction h with
  | nil => rfl
  | cons hab _ ih => simp [hR _ _ hab, ih]

/-- C6 (as amended): for every catalog whose current prices are numbers or absent and whose
non-empty categories are plain text, `init` on a successful response renders navigation controls
and sections for exactly the categories whose product list is non-empty, in their original order,
and the counters are animated to the number of those categories and to the sum of their
product-list lengths. -/
theorem init_renders_nonempty_categories (U : UnicodeOps) (status : Nat) (categories : List Category)
    (page : Page) (hok : statusOk status = true)
    (hprices : ∀ c ∈ categories, ∀ p ∈ c.productList, p.currentPrice.isNumberOrFalsy = true)
    (hplain : ∀ c ∈ nonEmptyCategories categories, c.isPlain = true) :
    (init U (.response status (.value (some ⟨some categories⟩))) page).categoriesList.map
        (fun b => (b.name, b.dataCategory))
      = (nonEmptyCategories categories).map (fun c => (c.name, slugify U c.name)) ∧
    (∃ items,
      (init U (.response status (.value (some ⟨some categories⟩))) page).productsContainer
        = .sections items ∧
      items.map (fun s => (s.name, s.id, s.cards.length))
        = (nonEmptyCategories categories).map
            (fun c => (c.name, "section-" ++ slugify U c.name, c.productList.length))) ∧
    (init U (.response status (.value (some ⟨some categories⟩))) page).totalCategories
      = some (nonEmptyCategories categories).length ∧
    (init U (.response status (.value (some ⟨some categories⟩))) page).totalProducts
      = some ((nonEmptyCategories categories).map (fun c => c.productList.length)).sum := by
  have hmem : ∀ c ∈ nonEmptyCategories categories, c ∈ categories ∧ ∃ ps, c.products = some ps := by
    intro c hc
    simp only [nonEmptyCategories, List.mem_filter] at hc
    refine ⟨hc.1, ?_⟩
    cases hps : c.products with
    | none => simp [Category.productList, hps] at hc
    | some ps => exact ⟨ps, rfl⟩
  obtain ⟨items, hitems, hrel⟩ := mapExcept_ok (renderCategorySection U)
    (nonEmptyCategories categories) (fun c hc => by
      obtain ⟨hcat, ps, hps⟩ := hmem c hc
      refine renderCategorySection_ok U c ps hps (fun p hp => hprices c hcat p ?_)
      simpa [Category.productList, hps] using hp)
  have hcount := countProducts_ok (nonEmptyCategories categories)
    (fun c hc => by obtain ⟨_, ps, hps⟩ := hmem c hc; simp [hps]) 0
  have hinit : init U (.response status (.value (some ⟨some categories⟩))) page
      = { page with
          productsData := some ⟨some categories⟩
          loadingHidden := true
          categoriesList := navButtons U 0 (nonEmptyCategories categories)
          productsContainer := .sections items
          totalProducts := some ((nonEmptyCategories categories).map
            (fun c => c.productList.length)).sum
          totalCategories := some (nonEmptyCategories categories).length
          listening := true } := by
    simp only [init, loadProductsData, hok, Bool.not_true, Bool.false_eq_true, if_false,
      filter_hasProducts, renderCategoriesNav, renderProducts, hitems, updateStats, hcount,
      Nat.zero_add, hideLoading, initEventListeners]
  rw [hinit]
  refine ⟨navButtons_fields U _ 0, ⟨items, rfl, ?_⟩, rfl, rfl⟩
  exact forall₂_map_eq _ _ _ (fun c s h => renderCategorySection_fields U c s h) _ _ hrel

/-- For the catalog of two categories with 0 and 3 products: 1 navigation control, 1 section,
3 products and 1 category. -/
theorem init_renders_nonempty_categories_witness :
    (init latin1 (.response 200 (.value (some ⟨some sampleCatalog⟩))) blankPage).categoriesList.map
        (fun b => (b.name, b.dataCategory)) = [("Casa", "casa")] ∧
    (init latin1 (.response 200 (.value (some ⟨some sampleCatalog⟩))) blankPage).sections.map
        (fun s => (s.name, s.id, s.cards.length)) = [("Casa", "section-casa", 3)] ∧
    (init latin1 (.response 200 (.value (some ⟨some sampleCatalog⟩))) blankPage).totalCategories
      = some 1 ∧
    (init latin1 (.response 200 (.value (some ⟨some sampleCatalog⟩))) blankPage).totalProducts
      = some 3 := by
  have h := init_renders_nonempty_categories latin1 200 sampleCatalog blankPage (by decide)
    (by decide) (by decide)
  have e1 : (nonEmptyCategories sampleCatalog).map (fun c => (c.name, slugify latin1 c.name))
      = [("Casa", "casa")] := by decide
  have e2 : (nonEmptyCategories sampleCatalog).map
      (fun c => (c.name, "section-" ++ slugify latin1 c.name, c.productList.length))
      = [("Casa", "section-casa", 3)] := by decide
  have e3 : (nonEmptyCategories sampleCatalog).length = 1 := by decide
  have e4 : ((nonEmptyCategories sampleCatalog).map (fun c => c.productList.length)).sum = 3 := by
    decide
  rw [e1, e2, e3, e4] at h
  obtain ⟨hnav, ⟨items, hitems, hmap⟩, hcats, hprods⟩ := h
  refine ⟨hnav, ?_, hcats, hprods⟩
  rw [Page.sections, hitems]
  exact hmap

/-- C6 (as stated) fails for a catalog whose only product has the string "99.90" as current
price: the category is non-empty, `formatPrice` throws on the string, and `init` leaves the one
navigation control, no section and no counter target. -/
theorem init_string_price_counterexample :
    nonEmptyCategories stringPriceCatalog = stringPriceCatalog ∧
      (∀ c ∈ stringPriceCatalog, c.isPlain = true) ∧
      (init latin1 (.response 200 (.value (some ⟨some stringPriceCatalog⟩)))
        blankPage).categoriesList.map (fun b => (b.name, b.dataCategory)) = [("Casa", "casa")] ∧
      (init latin1 (.response 200 (.value (some ⟨some stringPriceCatalog⟩)))
        blankPage).sections = [] ∧
      (init latin1 (.response 200 (.value (some ⟨some stringPriceCatalog⟩)))
        blankPage).totalCategories = none ∧
      (init latin1 (.response 200 (.value (some ⟨some stringPriceCatalog⟩)))
        blankPage).totalProducts = none := by
  decide

theorem mapExcept_forall₂ {α β : Type} (f : α → Except JSError β) :
    ∀ (l : List α) (ys : List β), mapExcept f l = .ok ys →
      List.Forall₂ (fun x y => f x = .ok y) l ys := by
  intro l
  induction l with
  | nil =>
    intro ys h
    simp only [mapExcept, Except.ok.injEq] at h
    subst h
    exact List.Forall₂.nil
  | cons x xs ih =>
    intro ys h
    unfold mapExcept at h
    cases hx : f x with
    | error e => rw [hx] at h; exact absurd h (by simp)
    | ok y =>
      rw [hx] at h
      cases hxs : mapExcept f xs with
      | error e => rw [hxs] at h; exact absurd h (by simp)
      | ok zs =>
        rw [hxs] at h
        simp only [Except.ok.injEq] at h
        subst h
        exact List.Forall₂.cons hx (ih zs hxs)

/-- Outside the failure cases `init` reaches the end of its `try` block: the navigation and the
sections of the non-empty categories are on the page and the listeners are attached. -/
theorem init_completes (U : UnicodeOps) (fetched : FetchOutcome) (page : Page)
    (h1 : failsBeforeRender fetched = false) (h2 : renderThrows U fetched = false) :
    ∃ categories items, fetched.categories = some categories ∧
      (init U fetched page).categoriesList = navButtons U 0 (nonEmptyCategories categories) ∧
      (init U fetched page).productsContainer = .sections items ∧
      List.Forall₂ (fun c s => renderCategorySection U c = .ok s)
        (nonEmptyCategories categories) items ∧
      (init U fetched page).listening = true := by
  match fetched, h1, h2 with
  | .networkError, h1, _ => simp [failsBeforeRender] at h1
  | .response status .invalid, h1, _ => simp [failsBeforeRender] at h1
  | .response status (.value none), h1, _ => simp [failsBeforeRender] at h1
  | .response status (.value (some ⟨none⟩)), h1, _ => simp [failsBeforeRender] at h1
  | .response status (.value (some ⟨some categories⟩)), h1, h2 =>
    have hok : statusOk status = true := by
      simpa [failsBeforeRender] using h1
    simp only [renderThrows, hok, Bool.true_and, filter_hasProducts] at h2
    cases hitems : mapExcept (renderCategorySection U) (nonEmptyCategories categories) with
    | error e => simp [hitems] at h2
    | ok items =>
      have hsome : ∀ c ∈ nonEmptyCategories categories, c.products.isSome = true := by
        intro c hc
        have := (List.mem_filter.mp hc).2
        cases hps : c.products with
        | none => simp [Category.productList, hps] at this
        | some ps => rfl
      have hcount := countProducts_ok _ hsome 0
      refine ⟨categories, items, rfl, ?_, ?_, mapExcept_forall₂ _ _ _ hitems, ?_⟩ <;>
        simp [init, loadProductsData, hok, renderCategoriesNav, renderProducts, hitems,
          updateStats, hcount, hideLoading, initEventListeners, filter_hasProducts]

/-- C8 (as amended): whenever initialization fails, the loading indicator is hidden and the
product listing area holds only the error message; when it fails before rendering starts
(transport error, non-success HTTP status, unreadable body, payload without a categories list)
the navigation is left as it was, and when an exception is thrown while the products are rendered
the navigation controls written just before stay in place. -/
theorem init_failure_state (U : UnicodeOps) (fetched : FetchOutcome) (page : Page)
    (hfail : failsBeforeRender fetched = true ∨ renderThrows U fetched = true) :
    (init U fetched page).loadingHidden = true ∧
      (init U fetched page).productsContainer = .error initErrorMessage ∧
      (failsBeforeRender fetched = true →
        (init U fetched page).categoriesList = page.categoriesList) ∧
      (renderThrows U fetched = true → ∃ categories,
        fetched.categories = some categories ∧
        (init U fetched page).categoriesList = navButtons U 0 (nonEmptyCategories categories)) := by
  match fetched, hfail with
  | .networkError, _ =>
    simp [init, loadProductsData, initCatch, showError, hideLoading, initErrorMessage,
      renderThrows]
  | .response status .invalid, _ =>
    by_cases hok : statusOk status = true <;>
      simp [init, loadProductsData, initCatch, showError, hideLoading, initErrorMessage,
        renderThrows, hok]
  | .response status (.value none), _ =>
    by_cases hok : statusOk status = true <;>
      simp [init, loadProductsData, initCatch, showError, hideLoading, initErrorMessage,
        renderThrows, hok]
  | .response status (.value (some ⟨none⟩)), _ =>
    by_cases hok : statusOk status = true <;>
      simp [init, loadProductsData, initCatch, showError, hideLoading, initErrorMessage,
        renderThrows, hok]
  | .response status (.value (some ⟨some categories⟩)), hfail =>
    by_cases hok : statusOk status = true
    · have hthrows : renderThrows U (.response status (.value (some ⟨some categories⟩))) = true := by
        rcases hfail with h | h
        · simp [failsBeforeRender, hok] at h
        · exact h
      have hnot : failsBeforeRender (.response status (.value (some ⟨some categories⟩))) = false := by
        simp [failsBeforeRender, hok]
      simp only [renderThrows, hok, Bool.true_and] at hthrows
      rw [filter_hasProducts] at hthrows
      cases hitems : mapExcept (renderCategorySection U) (nonEmptyCategories categories) with
      | ok items => simp [hitems] at hthrows
      | error e =>
        simp [init, loadProductsData, initCatch, showError, hideLoading, initErrorMessage, hok,
          renderCategoriesNav, renderProducts, hitems, hnot, FetchOutcome.categories,
          filter_hasProducts]
    · simp [init, loadProductsData, initCatch, showError, hideLoading, initErrorMessage,
        renderThrows, hok]

/-- An HTTP 500 response: the loading indicator is hidden, the listing area holds the error
message, and the navigation of the blank page is still empty. -/
theorem init_failure_state_witness :
    (init latin1 (.response 500 .invalid) blankPage).loadingHidden = true ∧
      (init latin1 (.response 500 .invalid) blankPage).productsContainer
        = .error initErrorMessage ∧
      (init latin1 (.response 500 .invalid) blankPage).categoriesList = [] := by
  have h := init_failure_state latin1 (.response 500 .invalid) blankPage (Or.inl (by decide))
  exact ⟨h.1, h.2.1, h.2.2.1 (by decide)⟩

/-- C8 (as stated) fails when rendering throws: a product whose current price is the string
"99.90" makes `formatPrice` throw inside `renderProducts`, after `renderCategoriesNav` has written
the navigation; the error message is shown and the loading indicator hidden, but the navigation
control of the category stays on the page. -/
theorem init_partial_ui_counterexample :
    renderThrows latin1 (.response 200 (.value (some ⟨some stringPriceCatalog⟩))) = true ∧
      blankPage.categoriesList = [] ∧
      (init latin1 (.response 200 (.value (some ⟨some stringPriceCatalog⟩))) blankPage).productsContainer
        = .error initErrorMessage ∧
      (init latin1 (.response 200 (.value (some ⟨some stringPriceCatalog⟩)))
        blankPage).categoriesList.map (fun b => (b.name, b.active)) = [("Casa", true)] := by
  decide

/-! ## The active navigation control -/

theorem activeCount_navButtons_succ (U : UnicodeOps) (l : List Category) :
    ∀ i, activeCount (navButtons U (i + 1) l) = 0 := by
  induction l with
  | nil => intro i; rfl
  | cons c cs ih =>
    intro i
    have h := ih (i + 1)
    simp only [activeCount] at h ⊢
    simp [navButtons, navButton, List.countP_cons, h]

theorem activeCount_navButtons_zero (U : UnicodeOps) (c : Category) (cs : List Category) :
    activeCount (navButtons U 0 (c :: cs)) = 1 := by
  have h := activeCount_navButtons_succ U cs 0
  simp only [activeCount] at h ⊢
  simp [navButtons, navButton, List.countP_cons, h]

theorem activeCount_set (l : List NavButton) (hl : ∀ b ∈ l, b.active = false) :
    ∀ (k : Nat) (x : NavButton), k < l.length → x.active = true →
      activeCount (l.set k x) = 1 := by
  induction l with
  | nil => intro k x hk; simp at hk
  | cons y ys ih =>
    intro k x hk hx
    have hy : y.active = false := hl y (List.mem_cons_self _ _)
    have hys : ∀ b ∈ ys, b.active = false := fun b hb => hl b (List.mem_cons_of_mem _ hb)
    cases k with
    | zero =>
      have hzero : List.countP (fun b => b.active) ys = 0 := by
        rw [List.countP_eq_zero]
        intro b hb
        simp [hys b hb]
      simp [activeCount, List.countP_cons, hx, hzero]
    | succ k =>
      have h := ih hys k x (by simpa using hk) hx
      simp only [activeCount] at h
      simp [activeCount, List.countP_cons, hy, h]

theorem activateOnly_eq (k : Nat) (l : List NavButton) (b : NavButton) (hb : l[k]? = some b) :
    activateOnly k l = (l.map NavButton.deactivate).set k b.deactivate.activate := by
  simp [activateOnly, hb]

theorem activeCount_activateOnly (k : Nat) (l : List NavButton) (hk : k < l.length) :
    activeCount (activateOnly k l) = 1 := by
  obtain ⟨b, hb⟩ : ∃ b, l[k]? = some b := ⟨l[k], by simp [hk]⟩
  rw [activateOnly_eq k l b hb]
  apply activeCount_set
  · intro x hx
    obtain ⟨y, _, rfl⟩ := List.mem_map.mp hx
    rfl
  · simpa using hk
  · rfl

theorem lt_length_of_getElem? {α : Type} {l : List α} {k : Nat} {x : α} (h : l[k]? = some x) :
    k < l.length := by
  by_contra hk
  rw [List.getElem?_eq_none (by omega)] at h
  exact Option.noConfusion h

theorem handleCategoryClick_active (target : Option Nat) (page : Page)
    (hone : activeCount page.categoriesList = 1) :
    activeCount (handleCategoryClick target page).categoriesList = 1 := by
  unfold handleCategoryClick
  cases target with
  | none => exact hone
  | some k =>
    cases hk : page.categoriesList[k]? with
    | none => simpa [hk] using hone
    | some btn =>
      simp only [hk]
      split
      · exact activeCount_activateOnly k _ (lt_length_of_getElem? hk)
      · exact hone

theorem scrollStep_active (layout : Nat → Span) (probe : Int) (i : Nat) (s : CategorySection)
    (buttons : List NavButton) (hone : activeCount buttons = 1) :
    activeCount (scrollStep layout probe i s buttons) = 1 := by
  unfold scrollStep
  simp only
  split
  · cases hf : findButton (String.mk (removeFirst "section-".toList s.id.data)) buttons with
    | none => exact hone
    | some k =>
      cases hk : buttons[k]? with
      | none => simpa [hk] using hone
      | some btn =>
        simp only [hk]
        split
        · exact activeCount_activateOnly k _ (lt_length_of_getElem? hk)
        · exact hone
  · exact hone

theorem scrollLoop_active (layout : Nat → Span) (probe : Int) (secs : List CategorySection) :
    ∀ (i : Nat) (buttons : List NavButton), activeCount buttons = 1 →
      activeCount (scrollLoop layout probe i secs buttons) = 1 := by
  induction secs with
  | nil => intro i buttons h; exact h
  | cons s rest ih =>
    intro i buttons h
    exact ih (i + 1) _ (scrollStep_active layout probe i s buttons h)

/-! ## Scrolling into a section -/

theorem removeFirst_leading (p s : List Char) (hp : p ≠ []) : removeFirst p (p ++ s) = s := by
  cases p with
  | nil => exact absurd rfl hp
  | cons c cs =>
    have hpre : (c :: cs).isPrefixOf (c :: (cs ++ s)) = true := by
      rw [List.isPrefixOf_iff_prefix]
      exact ⟨s, rfl⟩
    simp only [List.cons_append, removeFirst, hpre, if_true]
    simp

theorem sectionSlug (sec : CategorySection) (slug : String) (hid : sec.id = "section-" ++ slug) :
    String.mk (removeFirst "section-".toList sec.id.data) = slug := by
  rw [hid, String.data_append]
  rw [show "section-".toList = "section-".data from rfl, removeFirst_leading _ _ (by decide)]

theorem set_dataCategory (l : List NavButton) :
    ∀ (k : Nat) (x : NavButton), (∀ y, l[k]? = some y → x.dataCategory = y.dataCategory) →
      (l.set k x).map (·.dataCategory) = l.map (·.dataCategory) := by
  induction l with
  | nil => intro k x _; rfl
  | cons y ys ih =>
    intro k x h
    cases k with
    | zero => simp [h y List.getElem?_cons_zero]
    | succ k => simp [ih k x (fun z hz => h z (by simpa using hz))]

theorem activateOnly_dataCategory (k : Nat) (l : List NavButton) :
    (activateOnly k l).map (·.dataCategory) = l.map (·.dataCategory) := by
  have hclear : (l.map NavButton.deactivate).map (·.dataCategory) = l.map (·.dataCategory) := by
    simp [NavButton.deactivate, Function.comp_def]
  unfold activateOnly
  simp only
  cases hk : (l.map NavButton.deactivate)[k]? with
  | none => simpa using hclear
  | some b =>
    simp only
    rw [set_dataCategory, hclear]
    intro y hy
    rw [hk] at hy
    simp only [Option.some.injEq] at hy
    subst hy
    rfl

theorem scrollStep_dataCategory (layout : Nat → Span) (probe : Int) (i : Nat)
    (s : CategorySection) (buttons : List NavButton) :
    (scrollStep layout probe i s buttons).map (·.dataCategory)
      = buttons.map (·.dataCategory) := by
  unfold scrollStep
  simp only
  split
  · cases hf : findButton (String.mk (removeFirst "section-".toList s.id.data)) buttons with
    | none => rfl
    | some k =>
      cases hk : buttons[k]? with
      | none => simp only [hk]
      | some btn =>
        simp only [hk]
        split
        · exact activateOnly_dataCategory k buttons
        · rfl
  · rfl

theorem scrollLoop_skip (layout : Nat → Span) (probe : Int) (secs : List CategorySection) :
    ∀ (i : Nat) (buttons : List NavButton),
      (∀ j, i ≤ j → j < i + secs.length → ¬ (layout j).contains probe) →
      scrollLoop layout probe i secs buttons = buttons := by
  induction secs with
  | nil => intro i buttons _; rfl
  | cons s rest ih =>
    intro i buttons h
    have hstep : scrollStep layout probe i s buttons = buttons := by
      unfold scrollStep
      simp only
      rw [if_neg (show ¬ ((layout i).top ≤ probe ∧ probe < (layout i).top + (layout i).height)
        from h i (Nat.le_refl i) (by simp))]
    simp only [scrollLoop, hstep]
    exact ih (i + 1) buttons (fun j hj hlt =>
      h j (by omega) (by simp only [List.length_cons]; omega))

theorem findButton_first (slug : String) (l : List NavButton) :
    ∀ b : Nat, (l.map (·.dataCategory))[b]? = some slug →
      (∀ j s, j < b → (l.map (·.dataCategory))[j]? = some s → s ≠ slug) →
      findButton slug l = some b := by
  induction l with
  | nil => intro b h; simp at h
  | cons x xs ih =>
    intro b h hfirst
    cases b with
    | zero =>
      simp only [List.map_cons, List.getElem?_cons_zero, Option.some.injEq] at h
      simp [findButton, h]
    | succ b =>
      have hx : x.dataCategory ≠ slug := hfirst 0 x.dataCategory (by omega) (by simp)
      have hrest := ih b (by simpa using h) (fun j s hj hs =>
        hfirst (j + 1) s (by omega) (by simpa using hs))
      simp [findButton, hx, hrest]

theorem countP_one_unique (l : List NavButton) :
    ∀ (b : Nat) (btn : NavButton), activeCount l = 1 → l[b]? = some btn → btn.active = true →
      OnlyActive b l := by
  induction l with
  | nil => intro b btn _ hb; simp at hb
  | cons x xs ih =>
    intro b btn hone hb hact k bk hk
    simp only [activeCount, List.countP_cons] at hone
    cases b with
    | zero =>
      simp only [List.getElem?_cons_zero, Option.some.injEq] at hb
      subst hb
      have hzero : List.countP (fun b => b.active) xs = 0 := by simpa [hact] using hone
      cases k with
      | zero =>
        simp only [List.getElem?_cons_zero, Option.some.injEq] at hk
        subst hk
        simp [hact]
      | succ k =>
        simp only [List.getElem?_cons_succ] at hk
        have hmem : bk ∈ xs := List.getElem?_mem hk
        have := (List.countP_eq_zero.mp hzero) bk hmem
        simp only [Bool.not_eq_true] at this
        simp [this]
    | succ b =>
      simp only [List.getElem?_cons_succ] at hb
      have hpos : 0 < List.countP (fun b => b.active) xs :=
        List.countP_pos_iff.mpr ⟨btn, List.getElem?_mem hb, hact⟩
      have hx : x.active = false := by
        by_contra hx
        have hx' : x.active = true := by simpa using hx
        simp only [hx', if_true] at hone
        omega
      have hxs : activeCount xs = 1 := by
        simp only [hx, Bool.false_eq_true, if_false, Nat.add_zero] at hone
        exact hone
      cases k with
      | zero =>
        simp only [List.getElem?_cons_zero, Option.some.injEq] at hk
        subst hk
        simp [hx]
      | succ k =>
        simp only [List.getElem?_cons_succ] at hk
        have := ih b btn hxs hb hact k bk hk
        simp [this]

theorem onlyActive_activateOnly (k : Nat) (l : List NavButton) (hk : k < l.length) :
    OnlyActive k (activateOnly k l) := by
  obtain ⟨b, hb⟩ : ∃ b, l[k]? = some b := ⟨l[k], by simp [hk]⟩
  apply countP_one_unique _ k b.deactivate.activate (activeCount_activateOnly k l hk)
  · rw [activateOnly_eq k l b hb]
    simp [hk]
  · rfl

/-- The step on the section whose span holds the probe leaves exactly its button active. -/
theorem scrollStep_target (layout : Nat → Span) (probe : Int) (b : Nat) (sec : CategorySection)
    (slug : String) (buttons : List NavButton) (hid : sec.id = "section-" ++ slug)
    (hslug : (buttons.map (·.dataCategory))[b]? = some slug)
    (hfirst : ∀ j s, j < b → (buttons.map (·.dataCategory))[j]? = some s → s ≠ slug)
    (hprobe : (layout b).contains probe) (hone : activeCount buttons = 1) :
    OnlyActive b (scrollStep layout probe b sec buttons) := by
  have hfind := findButton_first slug buttons b hslug hfirst
  obtain ⟨btn, hbtn⟩ : ∃ btn, buttons[b]? = some btn := by
    rw [List.getElem?_map] at hslug
    cases hb : buttons[b]? with
    | none => rw [hb] at hslug; exact absurd hslug (by simp)
    | some btn => exact ⟨btn, rfl⟩
  unfold scrollStep
  simp only [sectionSlug sec slug hid, hfind, hbtn]
  rw [if_pos (show (layout b).top ≤ probe ∧ probe < (layout b).top + (layout b).height
    from hprobe)]
  by_cases hact : btn.active = true
  · simp only [hact, Bool.not_true, Bool.false_eq_true, if_false]
    exact countP_one_unique buttons b btn hone hbtn hact
  · have hact' : btn.active = false := by simpa using hact
    simp only [hact', Bool.not_false, if_true]
    exact onlyActive_activateOnly b buttons (lt_length_of_getElem? hbtn)

theorem scrollLoop_target (layout : Nat → Span) (probe : Int) (b : Nat) (sec : CategorySection)
    (slug : String) (slugs : List String) (hid : sec.id = "section-" ++ slug)
    (hslug : slugs[b]? = some slug)
    (hfirst : ∀ j s, j < b → slugs[j]? = some s → s ≠ slug)
    (hprobe : (layout b).contains probe) (total : Nat)
    (hlater : ∀ j, b < j → j < total → ¬ (layout j).contains probe)
    (secs : List CategorySection) :
    ∀ (i : Nat) (buttons : List NavButton), i ≤ b → i + secs.length = total →
      secs[b - i]? = some sec → activeCount buttons = 1 →
      buttons.map (·.dataCategory) = slugs →
      OnlyActive b (scrollLoop layout probe i secs buttons) := by
  induction secs with
  | nil => intro i buttons _ _ h; simp at h
  | cons s rest ih =>
    intro i buttons hi htotal hsec hone hmap
    simp only [List.length_cons] at htotal
    by_cases hib : i = b
    · subst hib
      simp only [Nat.sub_self, List.getElem?_cons_zero, Option.some.injEq] at hsec
      subst hsec
      simp only [scrollLoop]
      rw [scrollLoop_skip layout probe rest (i + 1) _
        (fun j hj hlt => hlater j (by omega) (by omega))]
      exact scrollStep_target layout probe i s slug buttons hid (by rw [hmap]; exact hslug)
        (by rw [hmap]; exact hfirst) hprobe hone
    · have hlt : i < b := by omega
      have hsec' : rest[b - (i + 1)]? = some sec := by
        have e : b - i = (b - (i + 1)) + 1 := by omega
        rw [e, List.getElem?_cons_succ] at hsec
        exact hsec
      simp only [scrollLoop]
      exact ih (i + 1) _ (by omega) (by omega) hsec'
        (scrollStep_active layout probe i s buttons hone)
        (by rw [scrollStep_dataCategory, hmap])

theorem scrollLoop_dataCategory (layout : Nat → Span) (probe : Int)
    (secs : List CategorySection) :
    ∀ (i : Nat) (buttons : List NavButton),
      (scrollLoop layout probe i secs buttons).map (·.dataCategory)
        = buttons.map (·.dataCategory) := by
  induction secs with
  | nil => intro i buttons; rfl
  | cons s rest ih =>
    intro i buttons
    simp only [scrollLoop]
    rw [ih, scrollStep_dataCategory]

theorem navButtons_dataCategory (U : UnicodeOps) (l : List Category) :
    ∀ i, (navButtons U i l).map (·.dataCategory) = l.map (fun c => slugify U c.name) := by
  induction l with
  | nil => intro i; rfl
  | cons c cs ih => intro i; simp [navButtons, navButton, ih (i + 1)]

theorem sections_ids (U : UnicodeOps) (l : List Category) (items : List CategorySection)
    (h : List.Forall₂ (fun c s => renderCategorySection U c = .ok s) l items) :
    items.map (·.id) = l.map (fun c => "section-" ++ slugify U c.name) := by
  refine forall₂_map_eq _ _ _ (fun c s hcs => ?_) _ _ h
  have := renderCategorySection_fields U c s hcs
  simp only [Prod.mk.injEq] at this
  exact this.2.1

theorem handleCategoryClick_shape (target : Option Nat) (page : Page) :
    (handleCategoryClick target page).categoriesList.map (·.dataCategory)
        = page.categoriesList.map (·.dataCategory) ∧
      (handleCategoryClick target page).sections = page.sections := by
  unfold handleCategoryClick
  cases target with
  | none => exact ⟨rfl, rfl⟩
  | some k =>
    cases hk : page.categoriesList[k]? with
    | none => simp [hk]
    | some btn =>
      simp only [hk]
      split
      · exact ⟨activateOnly_dataCategory k _, rfl⟩
      · exact ⟨rfl, rfl⟩

theorem handleScroll_shape (layout : Nat → Span) (scrollY : Int) (page : Page) :
    (handleScroll layout scrollY page).categoriesList.map (·.dataCategory)
        = page.categoriesList.map (·.dataCategory) ∧
      (handleScroll layout scrollY page).sections = page.sections := by
  refine ⟨?_, rfl⟩
  simp only [handleScroll, updateActiveCategoryOnScroll]
  rw [scrollLoop_dataCategory]

theorem handleScroll_active (layout : Nat → Span) (scrollY : Int) (page : Page)
    (hone : activeCount page.categoriesList = 1) :
    activeCount (handleScroll layout scrollY page).categoriesList = 1 := by
  simp only [handleScroll, updateActiveCategoryOnScroll]
  exact scrollLoop_active layout (scrollY + 200) _ 0 _ hone

/-- On every rendered page the controls and the sections are those of the shown categories, in
order, and one control is active as soon as there is a category. -/
theorem rendered_shape (U : UnicodeOps) (shown : List Category) (page : Page)
    (h : Rendered U shown page) :
    page.categoriesList.map (·.dataCategory) = shown.map (fun c => slugify U c.name) ∧
      page.sections.map (·.id) = shown.map (fun c => "section-" ++ slugify U c.name) ∧
      (shown ≠ [] → activeCount page.categoriesList = 1) := by
  induction h with
  | loaded fetched categories page0 hcats hshown _ hload hrender =>
    obtain ⟨cats, items, hc, hnav, hlist, hrel, _⟩ := init_completes U fetched page0 hload hrender
    rw [hcats] at hc
    simp only [Option.some.injEq] at hc
    subst hc
    subst hshown
    refine ⟨?_, ?_, ?_⟩
    · rw [hnav]
      exact navButtons_dataCategory U _ 0
    · rw [Page.sections, hlist]
      exact sections_ids U _ items hrel
    · intro hne
      rw [hnav]
      cases hs : nonEmptyCategories categories with
      | nil => exact absurd hs hne
      | cons c cs => exact activeCount_navButtons_zero U c cs
  | click target page0 _ ih =>
    obtain ⟨h1, h2, h3⟩ := ih
    obtain ⟨s1, s2⟩ := handleCategoryClick_shape target page0
    exact ⟨s1.trans h1, by rw [s2]; exact h2,
      fun hne => handleCategoryClick_active target page0 (h3 hne)⟩
  | scroll layout scrollY page0 _ ih =>
    obtain ⟨h1, h2, h3⟩ := ih
    obtain ⟨s1, s2⟩ := handleScroll_shape layout scrollY page0
    exact ⟨s1.trans h1, by rw [s2]; exact h2,
      fun hne => handleScroll_active layout scrollY page0 (h3 hne)⟩

/-- C9 (as amended): whenever at least one category is rendered and the categories are plain
text, exactly one navigation control is marked active: `renderCategoriesNav` on a non-empty list
produces exactly one active control, every click transition and every scroll transition from a
state with exactly one active control leads to a state with exactly one active control, and so
every page reached after a successful `init` with these categories has exactly one active
control. -/
theorem exactly_one_active (U : UnicodeOps) (categories : List Category) (page : Page)
    (target : Option Nat) (layout : Nat → Span) (scrollY : Int)
    (hne : categories ≠ []) (hplain : ∀ c ∈ categories, c.isPlain = true)
    (hone : activeCount page.categoriesList = 1) :
    activeCount (renderCategoriesNav U categories page).categoriesList = 1 ∧
      activeCount (handleCategoryClick target page).categoriesList = 1 ∧
      activeCount (updateActiveCategoryOnScroll layout scrollY page).categoriesList = 1 ∧
      ∀ reached, Rendered U categories reached → activeCount reached.categoriesList = 1 := by
  refine ⟨?_, handleCategoryClick_active target page hone, ?_, ?_⟩
  · cases categories with
    | nil => exact absurd rfl hne
    | cons c cs => exact activeCount_navButtons_zero U c cs
  · exact scrollLoop_active layout (scrollY + 200) page.sections 0 _ hone
  · intro reached hreached
    exact (rendered_shape U categories reached hreached).2.2 hne

/-- On the page rendered from two categories: one active control after rendering, after a click
on the second control, and after scrolling into the second section. -/
theorem exactly_one_active_witness :
    activeCount (renderCategoriesNav latin1 twoCategoryCatalog blankPage).categoriesList = 1 ∧
      activeCount (handleCategoryClick (some 1)
        (init latin1 (.response 200 (.value (some ⟨some twoCategoryCatalog⟩)))
          blankPage)).categoriesList = 1 ∧
      activeCount (updateActiveCategoryOnScroll stackedLayout 500
        (init latin1 (.response 200 (.value (some ⟨some twoCategoryCatalog⟩)))
          blankPage)).categoriesList = 1 := by
  obtain ⟨h1, h2, h3, _⟩ := exactly_one_active latin1 twoCategoryCatalog
    (init latin1 (.response 200 (.value (some ⟨some twoCategoryCatalog⟩))) blankPage)
    (some 1) stackedLayout 500 (by decide) (by decide) (by decide)
  exact ⟨h1, h2, h3⟩

/-- C9 (as stated) fails for an empty category list: `renderCategoriesNav` then writes no control,
so none is active; `init` reaches that state for a catalog without categories. -/
theorem no_active_control_counterexample :
    activeCount (renderCategoriesNav latin1 [] blankPage).categoriesList = 0 ∧
      (init latin1 (.response 200 (.value (some ⟨some []⟩))) blankPage).productsContainer
        = .sections [] ∧
      activeCount
        (init latin1 (.response 200 (.value (some ⟨some []⟩))) blankPage).categoriesList = 0 := by
  decide

theorem getElem?_map_some {α β : Type} (f : α → β) (l : List α) (i : Nat) (y : β)
    (h : (l.map f)[i]? = some y) : ∃ x, l[i]? = some x ∧ f x = y := by
  rw [List.getElem?_map] at h
  cases hx : l[i]? with
  | none => rw [hx] at h; exact absurd h (by simp)
  | some x =>
    rw [hx] at h
    simp only [Option.map_some', Option.some.injEq] at h
    exact ⟨x, rfl, h⟩

/-- The scroll update on a page whose controls and sections are those of `categories`. -/
theorem scroll_activates_of_shape (U : UnicodeOps) (categories : List Category) (page : Page)
    (layout : Nat → Span) (scrollY : Int) (a b : Nat) (A B : Category)
    (hnav : page.categoriesList.map (·.dataCategory)
      = categories.map (fun c => slugify U c.name))
    (hsections : page.sections.map (·.id)
      = categories.map (fun c => "section-" ++ slugify U c.name))
    (hone : activeCount page.categoriesList = 1)
    (hab : a < b) (hA : categories[a]? = some A) (hB : categories[b]? = some B)
    (hslug : ∀ j C, j < b → categories[j]? = some C → slugify U C.name ≠ slugify U B.name)
    (hprobe : (layout b).contains (scrollY + 200))
    (hlater : ∀ j, b < j → j < page.sections.length → ¬ (layout j).contains (scrollY + 200)) :
    ∃ btnA btnB,
      (updateActiveCategoryOnScroll layout scrollY page).categoriesList[a]? = some btnA ∧
      (updateActiveCategoryOnScroll layout scrollY page).categoriesList[b]? = some btnB ∧
      btnA.dataCategory = slugify U A.name ∧ btnB.dataCategory = slugify U B.name ∧
      btnB.active = true ∧ btnA.active = false := by
  have hslugB : (categories.map (fun c => slugify U c.name))[b]? = some (slugify U B.name) := by
    rw [List.getElem?_map, hB]; rfl
  have hslugA : (categories.map (fun c => slugify U c.name))[a]? = some (slugify U A.name) := by
    rw [List.getElem?_map, hA]; rfl
  obtain ⟨sec, hsec, hid⟩ := getElem?_map_some (·.id) page.sections b
    ("section-" ++ slugify U B.name) (by rw [hsections, List.getElem?_map, hB]; rfl)
  have hfirst : ∀ j s, j < b → (categories.map (fun c => slugify U c.name))[j]? = some s →
      s ≠ slugify U B.name := by
    intro j s hj hs
    obtain ⟨C, hC, rfl⟩ := getElem?_map_some _ _ _ _ hs
    exact hslug j C hj hC
  have honly := scrollLoop_target layout (scrollY + 200) b sec (slugify U B.name) _ hid hslugB
    hfirst hprobe page.sections.length hlater page.sections 0 page.categoriesList (Nat.zero_le b)
    (Nat.zero_add _) (by simpa using hsec) hone hnav
  have hmap : (updateActiveCategoryOnScroll layout scrollY page).categoriesList.map
      (·.dataCategory) = categories.map (fun c => slugify U c.name) := by
    simp only [updateActiveCategoryOnScroll]
    rw [scrollLoop_dataCategory, hnav]
  obtain ⟨btnA, hbtnA, hdcA⟩ := getElem?_map_some (fun x : NavButton => x.dataCategory)
    (updateActiveCategoryOnScroll layout scrollY page).categoriesList a (slugify U A.name)
    (by rw [hmap]; exact hslugA)
  obtain ⟨btnB, hbtnB, hdcB⟩ := getElem?_map_some (fun x : NavButton => x.dataCategory)
    (updateActiveCategoryOnScroll layout scrollY page).categoriesList b (slugify U B.name)
    (by rw [hmap]; exact hslugB)
  refine ⟨btnA, btnB, hbtnA, hbtnB, hdcA, hdcB, (honly b btnB hbtnB).mpr rfl, ?_⟩
  have hne : ¬ btnA.active = true := fun h => by
    have := (honly a btnA hbtnA).mp h
    omega
  simpa using hne

/-- C10 (as amended): on every rendered page (the page `init` leaves for the shown categories,
which are plain text, or any page reached from it by clicks and scroll events) where category A
comes before category B,
the slug of B differs from the slug of every category before it, and the scroll probe point
(scrollY + 200) lies within the span `[top, top + height)` of B's section and of no later section
(sections do not overlap), `updateActiveCategoryOnScroll` leaves B's navigation control active and
A's control inactive, whether or not B's control was ever active before. -/
theorem scroll_activates_section (U : UnicodeOps) (shown : List Category) (page : Page)
    (layout : Nat → Span) (scrollY : Int) (a b : Nat) (A B : Category)
    (hrendered : Rendered U shown page)
    (hab : a < b) (hA : shown[a]? = some A) (hB : shown[b]? = some B)
    (hslug : ∀ j C, j < b → shown[j]? = some C → slugify U C.name ≠ slugify U B.name)
    (hprobe : (layout b).contains (scrollY + 200))
    (hlater : ∀ j, b < j → j < shown.length → ¬ (layout j).contains (scrollY + 200)) :
    ∃ btnA btnB,
      (updateActiveCategoryOnScroll layout scrollY page).categoriesList[a]? = some btnA ∧
      (updateActiveCategoryOnScroll layout scrollY page).categoriesList[b]? = some btnB ∧
      btnA.dataCategory = slugify U A.name ∧ btnB.dataCategory = slugify U B.name ∧
      btnB.active = true ∧ btnA.active = false := by
  obtain ⟨hnav, hsections, hone⟩ := rendered_shape U shown page hrendered
  have hne : shown ≠ [] := by
    intro hnil
    rw [hnil] at hB
    simp at hB
  have hlen : page.sections.length = shown.length := by
    have := congrArg List.length hsections
    simpa using this
  exact scroll_activates_of_shape U shown page layout scrollY a b A B hnav hsections (hone hne)
    hab hA hB hslug hprobe (fun j hj hlt => hlater j hj (by omega))

/-- On the page rendered from the categories "Casa" and "Moda", scrolling so that the probe lies
in the second section activates the control of "Moda" and deactivates the control of "Casa". -/
theorem scroll_activates_section_witness :
    (stackedLayout 1).contains (500 + 200) ∧
      ((updateActiveCategoryOnScroll stackedLayout 500
        (init latin1 (.response 200 (.value (some ⟨some twoCategoryCatalog⟩)))
          blankPage)).categoriesList[0]?).map (fun b => (b.dataCategory, b.active))
        = some ("casa", false) ∧
      ((updateActiveCategoryOnScroll stackedLayout 500
        (init latin1 (.response 200 (.value (some ⟨some twoCategoryCatalog⟩)))
          blankPage)).categoriesList[1]?).map (fun b => (b.dataCategory, b.active))
        = some ("moda", true) := by
  have hslug : ∀ (j : Nat) (C : Category), j < 1 → twoCategoryCatalog[j]? = some C →
      slugify latin1 C.name ≠ slugify latin1 "Moda" := by
    intro j C hj hC
    obtain rfl : j = 0 := by omega
    simp only [twoCategoryCatalog, List.getElem?_cons_zero, Option.some.injEq] at hC
    subst hC
    decide
  have hlater : ∀ j, 1 < j → j < twoCategoryCatalog.length →
      ¬ (stackedLayout j).contains (500 + 200) := by
    intro j hj _ hc
    simp only [Span.contains, stackedLayout] at hc
    omega
  have hrendered : Rendered latin1 twoCategoryCatalog
      (init latin1 (.response 200 (.value (some ⟨some twoCategoryCatalog⟩))) blankPage) :=
    Rendered.loaded _ twoCategoryCatalog blankPage rfl (by decide) (by decide) (by decide)
      (by decide)
  obtain ⟨btnA, btnB, hA, hB, hdA, hdB, hactB, hactA⟩ :=
    scroll_activates_section latin1 twoCategoryCatalog
      (init latin1 (.response 200 (.value (some ⟨some twoCategoryCatalog⟩))) blankPage)
      stackedLayout 500 0 1 ⟨"Casa", _⟩ ⟨"Moda", _⟩ hrendered (by decide) rfl rfl hslug
      (by decide) hlater
  refine ⟨by decide, ?_, ?_⟩
  · rw [hA, Option.map_some', hdA, hactA]
    decide
  · rw [hB, Option.map_some', hdB, hactB]
    decide

/-- C10 (as stated) fails when B's slug equals that of an earlier category: for "Casa" followed by
"CASA" both sections have the id `section-casa`, `querySelector` finds the first control with
`data-category="casa"`, which is A's and is already active, so with the probe inside B's section
A's control stays active and B's control stays inactive. -/
theorem scroll_slug_collision_counterexample :
    (init latin1 (.response 200 (.value (some ⟨some collidingCatalog⟩)))
        blankPage).sections.map (fun s => (s.name, s.id))
      = [("Casa", "section-casa"), ("CASA", "section-casa")] ∧
    (stackedLayout 1).contains (500 + 200) ∧
    (updateActiveCategoryOnScroll stackedLayout 500
        (init latin1 (.response 200 (.value (some ⟨some collidingCatalog⟩)))
          blankPage)).categoriesList.map (fun b => (b.name, b.active))
      = [("Casa", true), ("CASA", false)] := by
  decide

end Landing
